import Mathlib

/-!
Verification development for the Ericsson_Assets XML localisation scripts
(`LocalisationAssetForXml.py` and `Localising using CAR  and XML file.py`).

Lines of text are modelled as `List Char`.  The Python regular expressions used
by the scripts are all of the one concrete shape

  `<tag>(?:<!\[CDATA\[(.*?)\]\]>|([^<]+))</tag>`      (required content)
  `<tag>(?:<!\[CDATA\[(.*?)\]\]>|([^<]+))?</tag>`     (optional content)

so the matcher below implements exactly that pattern family: at a given
position the engine first tries the CDATA alternative (lazy `.*?`, `.` not
matching a newline), then the greedy `[^<]+` alternative (no backtracking is
possible there because `</` starts with the excluded character), then - for the
optional form - the empty group, mirroring Python `re` backtracking order.
`re.finditer` semantics (leftmost matches, scanning resumes after each match)
are given by `findMatches`; Python `str.replace` (all non-overlapping
occurrences, left to right) is `replaceAll`.
-/

/-- Match at the head: `beginsWith p s` is true when `p` is an initial segment of `s`. -/
def beginsWith : List Char → List Char → Bool
  | [], _ => true
  | _ :: _, [] => false
  | p :: ps, c :: cs => p == c && beginsWith ps cs

/-- Substring occurrence test, Python `pat in s`. -/
def containsSub (pat : List Char) : List Char → Bool
  | [] => beginsWith pat []
  | c :: rest => beginsWith pat (c :: rest) || containsSub pat rest

/-- Fuelled worker for `replaceAll`. -/
def replaceAllAux (pat rep : List Char) : Nat → List Char → List Char
  | 0, s => s
  | _ + 1, [] => []
  | fuel + 1, c :: rest =>
    if beginsWith pat (c :: rest) then
      rep ++ replaceAllAux pat rep fuel (List.drop pat.length (c :: rest))
    else
      c :: replaceAllAux pat rep fuel rest

/-- Python `s.replace(pat, rep)`: replace every non-overlapping occurrence of
`pat` in `s` by `rep`, scanning left to right and resuming after each
replacement. -/
def replaceAll (pat rep s : List Char) : List Char :=
  replaceAllAux pat rep s.length s

/-- The matched span together with the captured group content. -/
structure TagMatch where
  full : List Char
  value : List Char
  isCdata : Bool
deriving DecidableEq

/-- Text of the literal `<tag>`. -/
def openTagOf (t : List Char) : List Char := '<' :: (t ++ ['>'])

/-- Text of the literal `</tag>`. -/
def closeTagOf (t : List Char) : List Char := '<' :: '/' :: (t ++ ['>'])

/-- The literal `<![CDATA[`. -/
def cdataOpenMark : List Char := ['<', '!', '[', 'C', 'D', 'A', 'T', 'A', '[']

/-- The literal `]]>`. -/
def cdataCloseMark : List Char := [']', ']', '>']

/-- Lazy scan of `.*?` followed by the literal `closePat`: returns the shortest
newline-free content such that `closePat` starts right after it, together with
the remainder after `closePat`. -/
def cdataScan (closePat : List Char) : List Char → Option (List Char × List Char)
  | [] => if beginsWith closePat [] then some ([], List.drop closePat.length ([] : List Char)) else none
  | c :: rest =>
    if beginsWith closePat (c :: rest) then
      some ([], List.drop closePat.length (c :: rest))
    else if c = '\n' then none
    else
      match cdataScan closePat rest with
      | some (content, rem) => some (c :: content, rem)
      | none => none

/-- The CDATA alternative `<!\[CDATA\[(.*?)\]\]>` followed by `</tag>`, tried
first by the backtracking engine; `s1` is the text just after `<tag>`. -/
def matchCdataAlt (t : List Char) (s1 : List Char) : Option (TagMatch × List Char) :=
  if beginsWith cdataOpenMark s1 then
    match cdataScan (cdataCloseMark ++ closeTagOf t) (List.drop cdataOpenMark.length s1) with
    | some (content, rem) =>
      some ({ full := openTagOf t ++ cdataOpenMark ++ content ++ cdataCloseMark ++ closeTagOf t,
              value := content, isCdata := true }, rem)
    | none => none
  else none

/-- The `([^<]+)` alternative (greedy, no backtracking possible since `</tag>`
starts with the excluded `<`), and - when `allowEmpty` - the empty group of the
optional pattern; `s1` is the text just after `<tag>`. -/
def matchPlainAlt (t : List Char) (allowEmpty : Bool) (s1 : List Char) : Option (TagMatch × List Char) :=
  if List.takeWhile (fun c => c ≠ '<') s1 ≠ [] ∧
      beginsWith (closeTagOf t) (List.dropWhile (fun c => c ≠ '<') s1) = true then
    some ({ full := openTagOf t ++ List.takeWhile (fun c => c ≠ '<') s1 ++ closeTagOf t,
            value := List.takeWhile (fun c => c ≠ '<') s1, isCdata := false },
          List.drop (closeTagOf t).length (List.dropWhile (fun c => c ≠ '<') s1))
  else if allowEmpty = true ∧ beginsWith (closeTagOf t) s1 = true then
    some ({ full := openTagOf t ++ closeTagOf t, value := [], isCdata := false },
          List.drop (closeTagOf t).length s1)
  else none

/-- Attempt to match the tag pattern at the head of `s`; on success returns the
match and the remaining text after the matched span.  `allowEmpty` selects the
optional-content pattern (trailing `?` on the group). -/
def matchTagHead (t : List Char) (allowEmpty : Bool) (s : List Char) : Option (TagMatch × List Char) :=
  if beginsWith (openTagOf t) s then
    match matchCdataAlt t (List.drop (openTagOf t).length s) with
    | some r => some r
    | none => matchPlainAlt t allowEmpty (List.drop (openTagOf t).length s)
  else none

/-- Fuelled worker for `findMatches`. -/
def findMatchesAux (t : List Char) (allowEmpty : Bool) : Nat → List Char → List TagMatch
  | 0, _ => []
  | _ + 1, [] => []
  | fuel + 1, c :: rest =>
    match matchTagHead t allowEmpty (c :: rest) with
    | some (m, rem) => m :: findMatchesAux t allowEmpty fuel rem
    | none => findMatchesAux t allowEmpty fuel rest

/-- Python `re.finditer(pattern_of t, s)`: all matches, leftmost first,
scanning resuming after each match. -/
def findMatches (t : List Char) (allowEmpty : Bool) (s : List Char) : List TagMatch :=
  findMatchesAux t allowEmpty s.length s

/-- Python `s.endswith(suf)`. -/
def strEndsWith (suf s : List Char) : Bool := beginsWith suf.reverse s.reverse

/-- Tag names recognised by the scripts (exact, case-sensitive). -/
def ppsDiskPathF : List Char := "ppsDiskPathF".toList

/-- Tag name `neDiskPathF`. -/
def neDiskPathF : List Char := "neDiskPathF".toList

/-- Tag name `ppsSFTPPathF`. -/
def ppsSFTPPathF : List Char := "ppsSFTPPathF".toList

/-- Tag name `neSFTPClientPathF`. -/
def neSFTPClientPathF : List Char := "neSFTPClientPathF".toList

/-- Tag name `matcherPathF`. -/
def matcherPathF : List Char := "matcherPathF".toList

/-- Tag name `scPathF`. -/
def scPathF : List Char := "scPathF".toList

/-- The path-bearing tag list of `extract_paths_from_line`. -/
def pathTags : List (List Char) :=
  [ppsDiskPathF, neDiskPathF, ppsSFTPPathF, neSFTPClientPathF, matcherPathF, scPathF]

/-- Tag name `ppsSFTPHostF`. -/
def ppsSFTPHostF : List Char := "ppsSFTPHostF".toList

/-- Tag name `neSFTPClientHostF`. -/
def neSFTPClientHostF : List Char := "neSFTPClientHostF".toList

/-- Tag name `ppsSFTPUserF`. -/
def ppsSFTPUserF : List Char := "ppsSFTPUserF".toList

/-- Tag name `neSFTPClientUserF`. -/
def neSFTPClientUserF : List Char := "neSFTPClientUserF".toList

/-- Tag name `ppsSFTPPassFlagF`. -/
def ppsSFTPPassFlagF : List Char := "ppsSFTPPassFlagF".toList

/-- Tag name `neSFTPClientPassFlagF`. -/
def neSFTPClientPassFlagF : List Char := "neSFTPClientPassFlagF".toList

/-- Tag name `defaultStoppedState`. -/
def defaultStoppedState : List Char := "defaultStoppedState".toList

/-- The replacement-tag construction shared by every update function:
`new_tag = <tag><![CDATA[v]]></tag>` when the matched span contains the literal
`<![CDATA[`, else `<tag>v</tag>` (the Python `if "<![CDATA[" in full_tag`). -/
def build_tag (t newValue full : List Char) : List Char :=
  if containsSub cdataOpenMark full then
    openTagOf t ++ cdataOpenMark ++ newValue ++ cdataCloseMark ++ closeTagOf t
  else
    openTagOf t ++ newValue ++ closeTagOf t

/-- One `re.finditer` rewrite pass over a line for one tag: matches are taken
from `line` and each span is substituted into the evolving string with
`str.replace`, exactly as the loop bodies of `update_sftp_username`,
`update_sftp_password`, `update_sftp_pass_flags` and
`update_default_stopped_state` do. -/
def rewritePass (t : List Char) (allowEmpty : Bool) (newValue line : List Char) : List Char :=
  (findMatches t allowEmpty line).foldl
    (fun acc m => replaceAll m.full (build_tag t newValue m.full) acc) line

/-- One `re.search` rewrite over a line for one tag: only the first match is
considered, and its span is substituted with `str.replace` (all occurrences of
that exact text), as `update_sftp_host` does. -/
def searchRewrite (t : List Char) (newValue line : List Char) : List Char :=
  match findMatches t false line with
  | [] => line
  | m :: _ => replaceAll m.full (build_tag t newValue m.full) line

/-- Per-line body of `update_sftp_host` (identical in both scripts):
`re.search` for `ppsSFTPHostF` on the line, then for `neSFTPClientHostF` on the
already-modified line. -/
def update_sftp_host_line (newHost line : List Char) : List Char :=
  searchRewrite neSFTPClientHostF newHost (searchRewrite ppsSFTPHostF newHost line)

/-- Whether `update_sftp_host` records a match on this line. -/
def update_sftp_host_found (newHost line : List Char) : Bool :=
  !(findMatches ppsSFTPHostF false line).isEmpty ||
  !(findMatches neSFTPClientHostF false (searchRewrite ppsSFTPHostF newHost line)).isEmpty

/-- File-level `update_sftp_host`: returns the success flag and the lines
written to the output file. -/
def update_sftp_host (newHost : List Char) (input : List (List Char)) :
    Bool × List (List Char) :=
  (input.any (update_sftp_host_found newHost), input.map (update_sftp_host_line newHost))

/-- Per-line body of `update_sftp_username`: `re.finditer` for `ppsSFTPUserF`
on the line, then for `neSFTPClientUserF` on the already-modified line. -/
def update_sftp_username_line (newUsername line : List Char) : List Char :=
  rewritePass neSFTPClientUserF true newUsername (rewritePass ppsSFTPUserF true newUsername line)

/-- Whether `update_sftp_username` records a match on this line. -/
def update_sftp_username_found (newUsername line : List Char) : Bool :=
  !(findMatches ppsSFTPUserF true line).isEmpty ||
  !(findMatches neSFTPClientUserF true (rewritePass ppsSFTPUserF true newUsername line)).isEmpty

/-- File-level `update_sftp_username`: returns the success flag and the lines
written to the output file. -/
def update_sftp_username (newUsername : List Char) (input : List (List Char)) :
    Bool × List (List Char) :=
  (input.any (update_sftp_username_found newUsername),
   input.map (update_sftp_username_line newUsername))

/-- Per-line body of `update_sftp_pass_flags` (tags processed in list order,
each pass running on the line as modified so far, forcing content `0`). -/
def update_sftp_pass_flags_line (line : List Char) : List Char :=
  rewritePass neSFTPClientPassFlagF true ['0'] (rewritePass ppsSFTPPassFlagF true ['0'] line)

/-- Whether `update_sftp_pass_flags` records a match on this line. -/
def update_sftp_pass_flags_found (line : List Char) : Bool :=
  !(findMatches ppsSFTPPassFlagF true line).isEmpty ||
  !(findMatches neSFTPClientPassFlagF true (rewritePass ppsSFTPPassFlagF true ['0'] line)).isEmpty

/-- File-level `update_sftp_pass_flags` (same body in both scripts): returns
the success flag and the lines written to the output file. -/
def update_sftp_pass_flags (input : List (List Char)) : Bool × List (List Char) :=
  (input.any update_sftp_pass_flags_found, input.map update_sftp_pass_flags_line)

/-- Per-line body of `update_default_stopped_state`, forcing content `1`. -/
def update_default_stopped_state_line (line : List Char) : List Char :=
  rewritePass defaultStoppedState true ['1'] line

/-- File-level `update_default_stopped_state`. -/
def update_default_stopped_state (input : List (List Char)) : Bool × List (List Char) :=
  (input.any (fun l => !(findMatches defaultStoppedState true l).isEmpty),
   input.map update_default_stopped_state_line)

/-- `extract_paths_from_line`: scan the six path tags (required-content
pattern) in list order and keep `(tag, path, full_tag)` for every match whose
captured path is non-empty (the Python `if path:` truthiness test). -/
def extract_paths_from_line (line : List Char) :
    List (List Char × List Char × List Char) :=
  pathTags.flatMap (fun t =>
    (findMatches t false line).filterMap
      (fun m => if m.value = [] then none else some (t, m.value, m.full)))

/-- POSIX `os.path.join` on two components, as used by `regenerate_xml`. -/
def posixJoin (a b : List Char) : List Char :=
  if beginsWith ['/'] b then b
  else if a = [] ∨ strEndsWith ['/'] a = true then a ++ b
  else a ++ '/' :: b

/-- The combined path computed by `regenerate_xml`:
`os.path.join(prefix, path.lstrip('/')).replace("\\", "/")`. -/
def combinedPathOf (pre path : List Char) : List Char :=
  replaceAll ['\\'] ['/'] (posixJoin pre (List.dropWhile (fun c => c = '/') path))

/-- Modelled from the spec wording of section 4.3: rewritten value =
`normalize_slashes(join(prefix, strip_leading_slash(original_path)))`, with
backslashes converted to forward slashes after joining. -/
def specRewrittenValue (pre path : List Char) : List Char :=
  (posixJoin pre (List.dropWhile (fun c => c = '/') path)).map
    (fun c => if c = '\\' then '/' else c)

/-- Per-line body of `regenerate_xml`: matches are extracted from the original
line and each full span is substituted by the rebuilt tag via `str.replace`. -/
def regenerate_xml_line (pre line : List Char) : List Char :=
  (extract_paths_from_line line).foldl
    (fun acc e => replaceAll e.2.2 (build_tag e.1 (combinedPathOf pre e.2.1) e.2.2) acc) line

/-- File-level `regenerate_xml`. -/
def regenerate_xml (pre : List Char) (input : List (List Char)) : List (List Char) :=
  input.map (regenerate_xml_line pre)

/-- Python `s.rstrip('/')`. -/
def rstripSlashes (s : List Char) : List Char :=
  ((s.reverse).dropWhile (fun c => c = '/')).reverse

/-- Python `s.lstrip('/')`. -/
def lstripSlashes (s : List Char) : List Char := List.dropWhile (fun c => c = '/') s

/-- The command string built by `create_mkdir_commands` for one entry:
`mkdir -p "<prefix-rstripped>/<path-lstripped>"`. -/
def mkdirCommandOf (pre path : List Char) : List Char :=
  "mkdir -p \"".toList ++ (rstripSlashes pre ++ '/' :: lstripSlashes path) ++ ['\"']

/-- `create_mkdir_commands`: one command per `(tag, path)` entry, in order. -/
def create_mkdir_commands (paths : List (List Char × List Char)) (pre : List Char) :
    List (List Char) :=
  paths.map (fun e => mkdirCommandOf pre e.2)

/-- The lines written by `write_mkdir_script`: `list(set(commands))` followed
by `.sort()`, i.e. the duplicate-free commands in sorted order. -/
def write_mkdir_script (commands : List (List Char)) : List (List Char) :=
  List.insertionSort (· ≤ ·) commands.dedup

/-- Python `str.lower`, restricted to the ASCII case mapping used by the file
names the scripts deal with. -/
def toLowerStr (s : List Char) : List Char := s.map Char.toLower

/-- The `file.lower().endswith('.xml')` test of the CAR-handling functions. -/
def isXmlName (name : List Char) : Bool := strEndsWith ".xml".toList (toLowerStr name)

/-- The XML files collected from the extracted tree by `extract_car_file`
(the tree walk is modelled by the list of file paths it enumerates). -/
def find_xml_files (files : List (List Char)) : List (List Char) :=
  files.filter isXmlName

/-- The payload selection of `extract_car_file`: sort all discovered XML paths
and take the first; `none` models the fatal no-XML error path
(`shutil.rmtree` + `handle_error_with_countdown` + `raise`). -/
def extract_car_select (files : List (List Char)) : Option (List Char) :=
  (List.insertionSort (· ≤ ·) (find_xml_files files)).head?

/-- A file of the extracted archive tree: directory part, file name, bytes.
The cleanup logic only inspects `name`. -/
structure FsFile where
  dir : List Char
  name : List Char
  content : List Char
deriving DecidableEq

/-- The `_modified` marker. -/
def modMarker : List Char := "_modified".toList

/-- The deletion sweep inside `cleanup_and_repackage_car`: every walked file
whose name ends in `.xml` (case-insensitively) and does not contain
`_modified` is removed. -/
def delete_unmodified_xml : List FsFile → List FsFile
  | [] => []
  | f :: r =>
    if isXmlName f.name && !(containsSub modMarker f.name) then delete_unmodified_xml r
    else f :: delete_unmodified_xml r

/-- `rename_modified_xml_files`: every remaining `.xml` file containing
`_modified` is renamed with `file.replace("_modified", "")`. -/
def rename_modified_xml_files : List FsFile → List FsFile
  | [] => []
  | f :: r =>
    (if isXmlName f.name && containsSub modMarker f.name then
      { f with name := replaceAll modMarker [] f.name }
     else f) :: rename_modified_xml_files r

/-- `cleanup_and_repackage_car` on the extracted tree: delete the non-modified
XML files, then rename the `_modified` ones; repackaging zips the resulting
list unchanged. -/
def cleanup_and_repackage_car (fs : List FsFile) : List FsFile :=
  rename_modified_xml_files (delete_unmodified_xml fs)

/-- The paths-stage intermediate of `main`
(`f"{splitext(output)[0]}_temp{splitext(output)[1]}"`, line 767). -/
def paths_temp_name (base ext : List Char) : List Char :=
  base ++ "_temp".toList ++ ext

/-- The numbered intermediate `_temp{i}` (used by `main` with `i` = 2..6 for
host, username, password, flags and default-stopped). -/
def numbered_temp_name (base ext : List Char) (i : Nat) : List Char :=
  base ++ "_temp".toList ++ (Nat.repr i).toList ++ ext

/-- The file names checked by the end-of-run sweep
(`for i in range(1, 7): ... _temp{i} ...`, lines 934-941). -/
def sweep_temp_names (base ext : List Char) : List (List Char) :=
  (List.range' 1 6).map (numbered_temp_name base ext)

/-- Wrapper form of a well-formed tag span. -/
inductive SpanForm
  | plain
  | cdata
deriving DecidableEq

/-- One well-formed tag span preceded by markup-free text: used to describe
lines on which the rewrite passes act segment by segment. -/
structure SpanSeg where
  gap : List Char
  tag : List Char
  form : SpanForm
  val : List Char
deriving DecidableEq

/-- The text of a span: `<tag>v</tag>` or `<tag><![CDATA[v]]></tag>`. -/
def renderSpan (t : List Char) (form : SpanForm) (v : List Char) : List Char :=
  match form with
  | SpanForm.plain => openTagOf t ++ v ++ closeTagOf t
  | SpanForm.cdata => openTagOf t ++ cdataOpenMark ++ v ++ cdataCloseMark ++ closeTagOf t

/-- The span text after the opening `<tag>`: used to express a span as
`'<' :: (tag ++ '>' :: spanBody ...)` when stepping through it. -/
def spanBody (t : List Char) (form : SpanForm) (v : List Char) : List Char :=
  match form with
  | SpanForm.plain => v ++ closeTagOf t
  | SpanForm.cdata => cdataOpenMark ++ (v ++ (cdataCloseMark ++ closeTagOf t))

/-- The text of a structured line: gaps and spans in order, then a tail. -/
def renderLine : List SpanSeg → List Char → List Char
  | [], tail => tail
  | sg :: rest, tail => sg.gap ++ (renderSpan sg.tag sg.form sg.val ++ renderLine rest tail)

/-- The text lines of a structured file. -/
def renderFile (lns : List (List SpanSeg × List Char)) : List (List Char) :=
  lns.map (fun e => renderLine e.1 e.2)

/-- Whether the pattern for tag `t` (optional content iff `ae`) matches the
span of `sg`: right tag, and non-empty content unless CDATA or optional. -/
def spanMatches (t : List Char) (ae : Bool) (sg : SpanSeg) : Bool :=
  decide (sg.tag = t) && (decide (sg.form = SpanForm.cdata) || decide (sg.val ≠ []) || ae)

/-- The `TagMatch` produced for a well-formed span. -/
def toTagMatch (sg : SpanSeg) : TagMatch :=
  { full := renderSpan sg.tag sg.form sg.val, value := sg.val,
    isCdata := decide (sg.form = SpanForm.cdata) }

/-- Tag-name sanity: non-empty and free of the delimiter characters; every
recognised tag name satisfies this. -/
def tagOk (t : List Char) : Prop :=
  t ≠ [] ∧ '<' ∉ t ∧ '>' ∉ t ∧ '/' ∉ t ∧ '!' ∉ t

/-- Well-formedness of one span segment: markup-free gap and value (values
additionally newline-free under CDATA, where `.` cannot match a newline). -/
def segOk (sg : SpanSeg) : Prop :=
  (∀ c ∈ sg.gap, ¬(c = '<')) ∧ tagOk sg.tag ∧ (∀ c ∈ sg.val, ¬(c = '<')) ∧
  (∀ c ∈ sg.val, ¬(c = '\n'))

/-- Well-formedness of a structured line. -/
def segsOk (segs : List SpanSeg) (tail : List Char) : Prop :=
  (∀ sg ∈ segs, segOk sg) ∧ (∀ c ∈ tail, ¬(c = '<'))

/-- The effect on one segment of replacing every occurrence of the span of
`sm` (tag `t`) by the same-wrapper span holding `nv`. -/
def updSegBy (t nv : List Char) (sm sg : SpanSeg) : SpanSeg :=
  if sg.tag = t ∧ sg.form = sm.form ∧ sg.val = sm.val then
    { sg with form := sm.form, val := nv }
  else sg

/-- The canonical effect of a two-tag `re.finditer` update on one segment:
force the value to `nv` when the tag is one of the two targets. -/
def forceValBy (t1 t2 nv : List Char) (sg : SpanSeg) : SpanSeg :=
  if sg.tag = t1 ∨ sg.tag = t2 then { sg with val := nv } else sg

/-- The canonical effect of a one-tag `re.finditer` update on one segment. -/
def forceVal (t nv : List Char) (sg : SpanSeg) : SpanSeg :=
  if sg.tag = t then { sg with val := nv } else sg

/-- Whether the text contains a `<` immediately followed by `!` (the only way
the literal `<![CDATA[` can occur); used to decide CDATA-wrapper questions. -/
def hasLtBang : List Char → Bool
  | c1 :: c2 :: rest => (c1 == '<' && c2 == '!') || hasLtBang (c2 :: rest)
  | _ => false

/-- SECTION: general lemmas about the embedded string primitives. -/
theorem beginsWith_iff {p s : List Char} : beginsWith p s = true ↔ ∃ r, s = p ++ r := by
  induction p generalizing s with
  | nil => simp [beginsWith]
  | cons a as ih =>
    cases s with
    | nil => simp [beginsWith]
    | cons c cs =>
      simp only [beginsWith, Bool.and_eq_true, beq_iff_eq, ih]
      constructor
      · rintro ⟨rfl, r, rfl⟩; exact ⟨r, rfl⟩
      · rintro ⟨r, h⟩
        cases h
        exact ⟨rfl, r, rfl⟩

theorem beginsWith_append (p r : List Char) : beginsWith p (p ++ r) = true :=
  beginsWith_iff.mpr ⟨r, rfl⟩

theorem beginsWith_decomp {p s : List Char} (h : beginsWith p s = true) :
    s = p ++ List.drop p.length s := by
  obtain ⟨r, rfl⟩ := beginsWith_iff.mp h
  rw [List.drop_left]

theorem cdataScan_decomp {cp s content rem : List Char}
    (h : cdataScan cp s = some (content, rem)) : s = content ++ cp ++ rem := by
  induction s generalizing content rem with
  | nil =>
    cases cp with
    | nil =>
      simp only [cdataScan, beginsWith, if_true, List.drop_nil] at h
      injection h with h'
      injection h' with h1 h2
      rw [← h1, ← h2]
      rfl
    | cons a as =>
      exact absurd h (by simp [cdataScan, beginsWith])
  | cons c rest ih =>
    simp only [cdataScan] at h
    split at h
    · rename_i hb
      injection h with h'
      injection h' with h1 h2
      rw [← h1, ← h2]
      simpa using beginsWith_decomp hb
    · split at h
      · exact absurd h (by simp)
      · cases hrec : cdataScan cp rest with
        | none => rw [hrec] at h; exact absurd h (by simp)
        | some pr =>
          rcases pr with ⟨content', rem'⟩
          rw [hrec] at h
          injection h with h'
          injection h' with h1 h2
          rw [← h1, ← h2]
          have := ih hrec
          rw [this]
          simp

theorem matchCdataAlt_decomp {t s1 : List Char} {m : TagMatch} {rem : List Char}
    (h : matchCdataAlt t s1 = some (m, rem)) :
    s1 = cdataOpenMark ++ m.value ++ cdataCloseMark ++ closeTagOf t ++ rem ∧
    m.full = openTagOf t ++ cdataOpenMark ++ m.value ++ cdataCloseMark ++ closeTagOf t ∧
    m.isCdata = true := by
  unfold matchCdataAlt at h
  split at h
  case isFalse => exact absurd h (by simp)
  case isTrue hcd =>
    split at h
    case h_2 => exact absurd h (by simp)
    case h_1 content rem' hscan =>
      injection h with h'
      injection h' with h1 h2
      rw [← h1, ← h2]
      refine ⟨?_, by simp, rfl⟩
      have hs1 : s1 = cdataOpenMark ++ List.drop cdataOpenMark.length s1 :=
        beginsWith_decomp hcd
      have hs2 := cdataScan_decomp hscan
      conv_lhs => rw [hs1, hs2]
      simp

theorem matchPlainAlt_decomp {t : List Char} {ae : Bool} {s1 : List Char} {m : TagMatch}
    {rem : List Char} (h : matchPlainAlt t ae s1 = some (m, rem)) :
    s1 = m.value ++ closeTagOf t ++ rem ∧
    m.full = openTagOf t ++ m.value ++ closeTagOf t ∧
    m.isCdata = false ∧
    (∀ c ∈ m.value, ¬(c = '<')) ∧
    (m.value = [] → ae = true) := by
  unfold matchPlainAlt at h
  split at h
  case isTrue hpl =>
    injection h with h'
    injection h' with h1 h2
    rw [← h1, ← h2]
    refine ⟨?_, by simp, rfl, ?_, ?_⟩
    · have hsplit : List.takeWhile (fun c => c ≠ '<') s1
          ++ List.dropWhile (fun c => c ≠ '<') s1 = s1 := List.takeWhile_append_dropWhile _ _
      have hrest : List.dropWhile (fun c => c ≠ '<') s1
          = closeTagOf t ++ List.drop (closeTagOf t).length (List.dropWhile (fun c => c ≠ '<') s1) :=
        beginsWith_decomp hpl.2
      conv_lhs => rw [← hsplit, hrest]
      simp
    · intro c hc
      simpa using List.mem_takeWhile_imp hc
    · intro hv
      exact absurd hv hpl.1
  case isFalse =>
    split at h
    case isTrue hemp =>
      injection h with h'
      injection h' with h1 h2
      rw [← h1, ← h2]
      refine ⟨?_, by simp, rfl, by simp, fun _ => hemp.1⟩
      have hs1 : s1 = closeTagOf t ++ List.drop (closeTagOf t).length s1 :=
        beginsWith_decomp hemp.2
      conv_lhs => rw [hs1]
      simp
    case isFalse => exact absurd h (by simp)

theorem matchTagHead_decomp {t : List Char} {ae : Bool} {s : List Char} {m : TagMatch}
    {rem : List Char} (h : matchTagHead t ae s = some (m, rem)) :
    s = m.full ++ rem ∧ m.full ≠ [] := by
  unfold matchTagHead at h
  split at h
  case isFalse => exact absurd h (by simp)
  case isTrue hopen =>
    have hs : s = openTagOf t ++ List.drop (openTagOf t).length s := beginsWith_decomp hopen
    split at h
    case h_1 r heq =>
      injection h with h'
      rw [h'] at heq
      obtain ⟨hd, hf, _⟩ := matchCdataAlt_decomp heq
      refine ⟨?_, by rw [hf]; simp [openTagOf]⟩
      conv_lhs => rw [hs, hd]
      rw [hf]
      simp
    case h_2 =>
      obtain ⟨hd, hf, _⟩ := matchPlainAlt_decomp h
      refine ⟨?_, by rw [hf]; simp [openTagOf]⟩
      conv_lhs => rw [hs, hd]
      rw [hf]
      simp

theorem matchTagHead_length {t : List Char} {ae : Bool} {s : List Char} {m : TagMatch}
    {rem : List Char} (h : matchTagHead t ae s = some (m, rem)) :
    rem.length < s.length := by
  obtain ⟨hs, hne⟩ := matchTagHead_decomp h
  rw [hs, List.length_append]
  have : 0 < m.full.length := List.length_pos.mpr hne
  omega

theorem findMatchesAux_congr {t : List Char} {ae : Bool} :
    ∀ (f1 f2 : Nat) (s : List Char), s.length ≤ f1 → s.length ≤ f2 →
      findMatchesAux t ae f1 s = findMatchesAux t ae f2 s := by
  intro f1
  induction f1 with
  | zero =>
    intro f2 s h1 _
    have : s = [] := List.length_eq_zero.mp (Nat.le_zero.mp h1)
    subst this
    cases f2 <;> rfl
  | succ k ih =>
    intro f2 s h1 h2
    cases s with
    | nil => cases f2 <;> rfl
    | cons c rest =>
      cases f2 with
      | zero => simp at h2
      | succ j =>
        simp only [findMatchesAux]
        cases hm : matchTagHead t ae (c :: rest) with
        | some pr =>
          rcases pr with ⟨m, rem⟩
          have hlen := matchTagHead_length hm
          simp only [List.length_cons] at h1 h2 hlen
          simp only []
          rw [ih j rem (by omega) (by omega)]
        | none =>
          simp only [List.length_cons] at h1 h2
          simp only []
          rw [ih j rest (by omega) (by omega)]

theorem findMatches_nil {t : List Char} {ae : Bool} : findMatches t ae [] = [] := rfl

theorem findMatches_cons_some {t : List Char} {ae : Bool} {c : Char} {rest : List Char}
    {m : TagMatch} {rem : List Char} (h : matchTagHead t ae (c :: rest) = some (m, rem)) :
    findMatches t ae (c :: rest) = m :: findMatches t ae rem := by
  have hlen := matchTagHead_length h
  simp only [List.length_cons] at hlen
  unfold findMatches
  simp only [List.length_cons, findMatchesAux, h]
  rw [findMatchesAux_congr rest.length rem.length rem (by omega) (le_refl _)]

theorem findMatches_cons_none {t : List Char} {ae : Bool} {c : Char} {rest : List Char}
    (h : matchTagHead t ae (c :: rest) = none) :
    findMatches t ae (c :: rest) = findMatches t ae rest := by
  unfold findMatches
  simp only [List.length_cons, findMatchesAux, h]

theorem replaceAllAux_congr {pat rep : List Char} (hp : pat ≠ []) :
    ∀ (f1 f2 : Nat) (s : List Char), s.length ≤ f1 → s.length ≤ f2 →
      replaceAllAux pat rep f1 s = replaceAllAux pat rep f2 s := by
  intro f1
  induction f1 with
  | zero =>
    intro f2 s h1 _
    have : s = [] := List.length_eq_zero.mp (Nat.le_zero.mp h1)
    subst this
    cases f2 <;> rfl
  | succ k ih =>
    intro f2 s h1 h2
    cases s with
    | nil => cases f2 <;> rfl
    | cons c rest =>
      cases f2 with
      | zero => simp at h2
      | succ j =>
        simp only [replaceAllAux]
        by_cases hb : beginsWith pat (c :: rest) = true
        · rw [if_pos hb, if_pos hb]
          have hple : 1 ≤ pat.length := by
            cases pat with
            | nil => exact absurd rfl hp
            | cons a as => simp
          have hdl : (List.drop pat.length (c :: rest)).length = (c :: rest).length - pat.length := by
            simp
          simp only [List.length_cons] at h1 h2 hdl
          rw [ih j (List.drop pat.length (c :: rest)) (by omega) (by omega)]
        · rw [if_neg hb, if_neg hb]
          simp only [List.length_cons] at h1 h2
          rw [ih j rest (by omega) (by omega)]

theorem replaceAll_nil {pat rep : List Char} : replaceAll pat rep [] = [] := rfl

theorem replaceAll_cons_pos {pat rep : List Char} {c : Char} {rest : List Char}
    (hp : pat ≠ []) (h : beginsWith pat (c :: rest) = true) :
    replaceAll pat rep (c :: rest) = rep ++ replaceAll pat rep (List.drop pat.length (c :: rest)) := by
  have hple : 1 ≤ pat.length := by
    cases pat with
    | nil => exact absurd rfl hp
    | cons a as => simp
  unfold replaceAll
  simp only [List.length_cons, replaceAllAux, if_pos h]
  congr 1
  exact replaceAllAux_congr hp rest.length (List.drop pat.length (c :: rest)).length
    (List.drop pat.length (c :: rest)) (by simp; omega) (le_refl _)

theorem replaceAll_cons_neg {pat rep : List Char} {c : Char} {rest : List Char}
    (h : beginsWith pat (c :: rest) = false) :
    replaceAll pat rep (c :: rest) = c :: replaceAll pat rep rest := by
  unfold replaceAll
  simp only [List.length_cons, replaceAllAux, if_neg (by simp [h] : ¬ beginsWith pat (c :: rest) = true)]

theorem containsSub_append (p : List Char) : ∀ (a b : List Char),
    containsSub p (a ++ p ++ b) = true := by
  intro a
  induction a with
  | nil =>
    intro b
    simp only [List.nil_append]
    cases p with
    | nil =>
      cases b with
      | nil => rfl
      | cons c bs => simp [containsSub, beginsWith]
    | cons x xs =>
      rw [List.cons_append]
      simp only [containsSub, Bool.or_eq_true]
      exact Or.inl (beginsWith_append (x :: xs) b)
  | cons c a' ih =>
    intro b
    rw [List.cons_append, List.cons_append]
    simp only [containsSub, Bool.or_eq_true]
    exact Or.inr (ih b)

theorem containsSub_of_decomp {p a b s : List Char}
    (hs : s = a ++ p ++ b) : containsSub p s = true := by
  rw [hs]; exact containsSub_append p a b

theorem containsSub_decomp {p : List Char} : ∀ {s : List Char},
    containsSub p s = true → ∃ a b, s = a ++ p ++ b := by
  intro s
  induction s with
  | nil =>
    intro h
    simp only [containsSub] at h
    obtain ⟨r, hr⟩ := beginsWith_iff.mp h
    exact ⟨[], r, by simp [← hr]⟩
  | cons c rest ih =>
    intro h
    simp only [containsSub, Bool.or_eq_true] at h
    cases h with
    | inl h =>
      obtain ⟨r, hr⟩ := beginsWith_iff.mp h
      exact ⟨[], r, by simp [hr]⟩
    | inr h =>
      obtain ⟨a, b, hab⟩ := ih h
      exact ⟨c :: a, b, by simp [hab]⟩

theorem replaceAll_singleton_map (a b : Char) : ∀ s : List Char,
    replaceAll [a] [b] s = s.map (fun c => if c = a then b else c) := by
  intro s
  induction s with
  | nil => rfl
  | cons c rest ih =>
    by_cases hc : c = a
    · subst hc
      have hb : beginsWith [c] (c :: rest) = true := by simp [beginsWith]
      rw [replaceAll_cons_pos (by simp) hb]
      simp only [List.length_cons, List.length_nil, Nat.zero_add, List.drop_succ_cons,
        List.drop_zero, List.map_cons, if_pos rfl]
      rw [ih]
      rfl
    · have hb : beginsWith [a] (c :: rest) = false := by
        simp [beginsWith]
        exact fun h => absurd h.symm hc
      rw [replaceAll_cons_neg hb]
      simp only [List.map_cons, if_neg hc]
      rw [ih]

theorem matchTagHead_shape {t : List Char} {ae : Bool} {s : List Char} {m : TagMatch}
    {rem : List Char} (h : matchTagHead t ae s = some (m, rem)) :
    (m.isCdata = true ∧
      m.full = openTagOf t ++ cdataOpenMark ++ m.value ++ cdataCloseMark ++ closeTagOf t) ∨
    (m.isCdata = false ∧ m.full = openTagOf t ++ m.value ++ closeTagOf t ∧
      (∀ c ∈ m.value, ¬(c = '<')) ∧ (m.value = [] → ae = true)) := by
  unfold matchTagHead at h
  split at h
  case isFalse => exact absurd h (by simp)
  case isTrue =>
    split at h
    case h_1 r heq =>
      injection h with h'
      rw [h'] at heq
      obtain ⟨_, hf, hc⟩ := matchCdataAlt_decomp heq
      exact Or.inl ⟨hc, hf⟩
    case h_2 =>
      obtain ⟨_, hf, hc, hv, he⟩ := matchPlainAlt_decomp h
      exact Or.inr ⟨hc, hf, hv, he⟩

theorem mem_findMatches {t : List Char} {ae : Bool} :
    ∀ (s : List Char) (m : TagMatch), m ∈ findMatches t ae s →
      ∃ u rem, matchTagHead t ae u = some (m, rem) := by
  have key : ∀ (n : Nat) (s : List Char), s.length ≤ n → ∀ m, m ∈ findMatches t ae s →
      ∃ u rem, matchTagHead t ae u = some (m, rem) := by
    intro n
    induction n with
    | zero =>
      intro s h m hm
      have : s = [] := List.length_eq_zero.mp (Nat.le_zero.mp h)
      subst this
      rw [findMatches_nil] at hm
      exact absurd hm (by simp)
    | succ k ih =>
      intro s h m hm
      cases s with
      | nil =>
        rw [findMatches_nil] at hm
        exact absurd hm (by simp)
      | cons c rest =>
        cases hh : matchTagHead t ae (c :: rest) with
        | some pr =>
          rcases pr with ⟨m0, rem⟩
          rw [findMatches_cons_some hh] at hm
          rcases List.mem_cons.mp hm with h1 | h2
          · subst h1; exact ⟨c :: rest, rem, hh⟩
          · have hlen := matchTagHead_length hh
            simp only [List.length_cons] at h hlen
            exact ih rem (by omega) m h2
        | none =>
          rw [findMatches_cons_none hh] at hm
          simp only [List.length_cons] at h
          exact ih rest (by omega) m hm
  intro s m hm
  exact key s.length s le_rfl m hm

theorem findMatches_shape {t : List Char} {ae : Bool} {s : List Char} {m : TagMatch}
    (hm : m ∈ findMatches t ae s) :
    (m.isCdata = true ∧
      m.full = openTagOf t ++ cdataOpenMark ++ m.value ++ cdataCloseMark ++ closeTagOf t) ∨
    (m.isCdata = false ∧ m.full = openTagOf t ++ m.value ++ closeTagOf t ∧
      (∀ c ∈ m.value, ¬(c = '<')) ∧ (m.value = [] → ae = true)) := by
  obtain ⟨u, rem, hu⟩ := mem_findMatches s m hm
  exact matchTagHead_shape hu

theorem hasLtBang_cons_cons (c d : Char) (rest : List Char) :
    hasLtBang (c :: d :: rest) = ((c == '<' && d == '!') || hasLtBang (d :: rest)) := rfl

theorem hasLtBang_pair : ∀ (a b : List Char), hasLtBang (a ++ '<' :: '!' :: b) = true := by
  intro a
  induction a with
  | nil =>
    intro b
    simp [hasLtBang_cons_cons]
  | cons c a' ih =>
    intro b
    cases a' with
    | nil =>
      have h2 := ih b
      simp only [List.nil_append] at h2
      show hasLtBang (c :: '<' :: '!' :: b) = true
      rw [hasLtBang_cons_cons, h2]
      simp
    | cons d a'' =>
      show hasLtBang (c :: d :: (a'' ++ '<' :: '!' :: b)) = true
      rw [hasLtBang_cons_cons]
      have h2 := ih b
      rw [List.cons_append] at h2
      rw [h2]
      simp

theorem hasLtBang_cons_ne {c : Char} (hc : ¬(c = '<')) (s : List Char) :
    hasLtBang (c :: s) = hasLtBang s := by
  cases s with
  | nil => rfl
  | cons d z =>
    rw [hasLtBang_cons_cons]
    have : (c == '<') = false := by simpa using hc
    simp [this]

theorem hasLtBang_lt_cons {s : List Char} (h : ∀ d, s.head? = some d → ¬(d = '!')) :
    hasLtBang ('<' :: s) = hasLtBang s := by
  cases s with
  | nil => rfl
  | cons d z =>
    rw [hasLtBang_cons_cons]
    have : (d == '!') = false := by simpa using h d rfl
    simp [this]

theorem noLtBang_append {l : List Char} (h : ∀ c ∈ l, ¬(c = '<')) (rest : List Char) :
    hasLtBang (l ++ rest) = hasLtBang rest := by
  induction l with
  | nil => rfl
  | cons c l' ih =>
    rw [List.cons_append, hasLtBang_cons_ne (h c (by simp))]
    exact ih (fun x hx => h x (by simp [hx]))

theorem hasLtBang_plain_full {t v : List Char} (ht : '<' ∉ t) (hbang : '!' ∉ t)
    (hv : ∀ c ∈ v, ¬(c = '<')) :
    hasLtBang (openTagOf t ++ v ++ closeTagOf t) = false := by
  have hnorm : openTagOf t ++ v ++ closeTagOf t
      = '<' :: (t ++ '>' :: (v ++ ('<' :: '/' :: (t ++ ['>'])))) := by
    simp [openTagOf, closeTagOf]
  rw [hnorm]
  rw [hasLtBang_lt_cons ?hd]
  case hd =>
    intro d hd
    cases t with
    | nil =>
      simp at hd
      rw [← hd]
      decide
    | cons c0 t' =>
      simp at hd
      rw [← hd]
      exact fun hh => hbang (by simp [hh])
  rw [noLtBang_append (fun c hc => fun hh => ht (hh ▸ hc)) _]
  rw [hasLtBang_cons_ne (by decide)]
  rw [noLtBang_append hv]
  rw [hasLtBang_lt_cons (by intro d hd; simp at hd; rw [← hd]; decide)]
  rw [hasLtBang_cons_ne (by decide)]
  rw [noLtBang_append (fun c hc => fun hh => ht (hh ▸ hc)) _]
  rfl

theorem containsSub_cdataOpen_plain {t v : List Char} (ht : '<' ∉ t) (hbang : '!' ∉ t)
    (hv : ∀ c ∈ v, ¬(c = '<')) :
    containsSub cdataOpenMark (openTagOf t ++ v ++ closeTagOf t) = false := by
  cases hcs : containsSub cdataOpenMark (openTagOf t ++ v ++ closeTagOf t) with
  | false => rfl
  | true =>
    exfalso
    obtain ⟨a, b, hab⟩ := containsSub_decomp hcs
    have hpair : openTagOf t ++ v ++ closeTagOf t
        = a ++ '<' :: '!' :: (['[', 'C', 'D', 'A', 'T', 'A', '['] ++ b) := by
      rw [hab]
      simp [cdataOpenMark]
    have htrue : hasLtBang (openTagOf t ++ v ++ closeTagOf t) = true := by
      rw [hpair]
      exact hasLtBang_pair a _
    rw [hasLtBang_plain_full ht hbang hv] at htrue
    exact absurd htrue (by simp)

theorem containsSub_cdataOpen_cdata_full (t v : List Char) :
    containsSub cdataOpenMark
      (openTagOf t ++ cdataOpenMark ++ v ++ cdataCloseMark ++ closeTagOf t) = true := by
  apply @containsSub_of_decomp cdataOpenMark (openTagOf t)
    (v ++ cdataCloseMark ++ closeTagOf t)
  simp [List.append_assoc]

theorem build_tag_of_match {t : List Char} {ae : Bool} {line : List Char} {m : TagMatch}
    (ht : '<' ∉ t) (hbang : '!' ∉ t) (hm : m ∈ findMatches t ae line) (nv : List Char) :
    (m.isCdata = true →
      build_tag t nv m.full = openTagOf t ++ cdataOpenMark ++ nv ++ cdataCloseMark ++ closeTagOf t) ∧
    (m.isCdata = false →
      build_tag t nv m.full = openTagOf t ++ nv ++ closeTagOf t) := by
  rcases findMatches_shape hm with ⟨hc, hf⟩ | ⟨hc, hf, hv, _⟩
  · constructor
    · intro _
      unfold build_tag
      rw [hf, if_pos (containsSub_cdataOpen_cdata_full t m.value)]
    · intro hfalse
      rw [hc] at hfalse
      exact absurd hfalse (by simp)
  · constructor
    · intro htrue
      rw [hc] at htrue
      exact absurd htrue (by simp)
    · intro _
      unfold build_tag
      rw [hf]
      rw [if_neg]
      intro hcontra
      rw [containsSub_cdataOpen_plain ht hbang hv] at hcontra
      exact absurd hcontra (by simp)

set_option maxRecDepth 10000 in
/-- C1: for every line and every path-bearing extraction `(tag, p, full)` with
non-empty `p`, the path-prefixing rewrite substitutes for the matched span the
rebuilt tag whose value is
`normalize_slashes(join(prefix, strip_leading_slash(p)))` (backslashes
converted to forward slashes after joining); in particular the scenario
`<ppsDiskPathF><![CDATA[/data/logs]]></ppsDiskPathF>` with prefix `/mnt/new`
yields `<ppsDiskPathF><![CDATA[/mnt/new/data/logs]]></ppsDiskPathF>`. -/
theorem C1_path_prefixing :
    (∀ pre path, combinedPathOf pre path = specRewrittenValue pre path) ∧
    (∀ pre line, regenerate_xml_line pre line =
      (extract_paths_from_line line).foldl
        (fun acc e => replaceAll e.2.2 (build_tag e.1 (specRewrittenValue pre e.2.1) e.2.2) acc)
        line) ∧
    regenerate_xml "/mnt/new".toList
        ["<ppsDiskPathF><![CDATA[/data/logs]]></ppsDiskPathF>".toList]
      = ["<ppsDiskPathF><![CDATA[/mnt/new/data/logs]]></ppsDiskPathF>".toList] := by
  have hval : ∀ pre path, combinedPathOf pre path = specRewrittenValue pre path := by
    intro pre path
    unfold combinedPathOf specRewrittenValue
    exact replaceAll_singleton_map '\\' '/' _
  refine ⟨hval, ?_, by decide⟩
  intro pre line
  unfold regenerate_xml_line
  have hfun : (fun (acc : List Char) (e : List Char × List Char × List Char) =>
        replaceAll e.2.2 (build_tag e.1 (combinedPathOf pre e.2.1) e.2.2) acc)
      = (fun acc e => replaceAll e.2.2 (build_tag e.1 (specRewrittenValue pre e.2.1) e.2.2) acc) := by
    funext acc e
    rw [hval]
  rw [hfun]

/-- C2: a rewrite of a matched span always keeps the wrapper style of the
original: when the match is a CDATA match the built replacement is
`<tag><![CDATA[v]]></tag>`, otherwise it is `<tag>v</tag>` - the CDATA wrapper
is never dropped and never introduced (for any tag name free of `<` and `!`,
which covers the whole recognised vocabulary). -/
theorem C2_cdata_wrapper_preserved :
    ∀ (t : List Char) (ae : Bool) (line nv : List Char) (m : TagMatch),
      '<' ∉ t → '!' ∉ t → m ∈ findMatches t ae line →
      ((m.isCdata = true →
        build_tag t nv m.full
          = openTagOf t ++ cdataOpenMark ++ nv ++ cdataCloseMark ++ closeTagOf t) ∧
       (m.isCdata = false →
        build_tag t nv m.full = openTagOf t ++ nv ++ closeTagOf t)) :=
  fun _ _ _ nv _ ht hb hm => build_tag_of_match ht hb hm nv

set_option maxRecDepth 10000 in
theorem C2_cdata_wrapper_preserved_witness :
    build_tag ppsSFTPUserF ['u'] "<ppsSFTPUserF><![CDATA[old]]></ppsSFTPUserF>".toList
      = openTagOf ppsSFTPUserF ++ cdataOpenMark ++ ['u'] ++ cdataCloseMark
        ++ closeTagOf ppsSFTPUserF :=
  (C2_cdata_wrapper_preserved ppsSFTPUserF true
    "<ppsSFTPUserF><![CDATA[old]]></ppsSFTPUserF>".toList ['u']
    { full := "<ppsSFTPUserF><![CDATA[old]]></ppsSFTPUserF>".toList,
      value := "old".toList, isCdata := true }
    (by decide) (by decide) (by decide)).1 rfl

set_option maxRecDepth 10000 in
/-- C4 counterexample: the required-content host pattern does match a host tag
with empty CDATA content - `<ppsSFTPHostF><![CDATA[]]></ppsSFTPHostF>` is
matched (once) and `update_sftp_host` rewrites it, contradicting the claim
that required-content patterns never match an empty tag. -/
theorem C4_counterexample :
    (findMatches ppsSFTPHostF false "<ppsSFTPHostF><![CDATA[]]></ppsSFTPHostF>".toList).length = 1 ∧
    update_sftp_host_line "9.9.9.9".toList "<ppsSFTPHostF><![CDATA[]]></ppsSFTPHostF>".toList
      = "<ppsSFTPHostF><![CDATA[9.9.9.9]]></ppsSFTPHostF>".toList := by
  decide

set_option maxRecDepth 10000 in
/-- C4 amended: the optional-content patterns match an empty or missing inner
span; the required-content patterns never match an empty PLAIN tag
(`<tag></tag>`), and every non-CDATA match of a required pattern has non-empty
content - but an empty CDATA tag does match a required pattern (see the
counterexample) - while path extraction discards every empty captured value,
so an empty-CDATA path tag yields no path entry. -/
theorem C4_empty_content :
    (∀ (t line : List Char) (m : TagMatch),
      m ∈ findMatches t false line → m.isCdata = false → m.value ≠ []) ∧
    (∀ (line : List Char) (e : List Char × List Char × List Char),
      e ∈ extract_paths_from_line line → e.2.1 ≠ []) ∧
    (findMatches ppsSFTPUserF true "<ppsSFTPUserF></ppsSFTPUserF>".toList).length = 1 ∧
    findMatches ppsSFTPHostF false "<ppsSFTPHostF></ppsSFTPHostF>".toList = [] ∧
    (findMatches ppsSFTPHostF false "<ppsSFTPHostF><![CDATA[]]></ppsSFTPHostF>".toList).length = 1 ∧
    extract_paths_from_line "<ppsDiskPathF><![CDATA[]]></ppsDiskPathF>".toList = [] := by
  refine ⟨?_, ?_, by decide, by decide, by decide, by decide⟩
  · intro t line m hm hc
    rcases findMatches_shape hm with ⟨hcd, _⟩ | ⟨_, _, _, hemp⟩
    · rw [hc] at hcd
      exact absurd hcd (by simp)
    · intro hv
      have := hemp hv
      exact absurd this (by simp)
  · intro line e he
    unfold extract_paths_from_line at he
    rw [List.mem_flatMap] at he
    obtain ⟨t, _, hmem⟩ := he
    rw [List.mem_filterMap] at hmem
    obtain ⟨m, _, hsome⟩ := hmem
    by_cases hv : m.value = []
    · rw [if_pos hv] at hsome
      exact absurd hsome (by simp)
    · rw [if_neg hv] at hsome
      injection hsome with h'
      rw [← h']
      exact hv

set_option maxRecDepth 10000 in
theorem C4_empty_content_witness :
    ({ full := "<ppsSFTPHostF>x</ppsSFTPHostF>".toList, value := ['x'],
       isCdata := false } : TagMatch).value ≠ [] :=
  C4_empty_content.1 ppsSFTPHostF "<ppsSFTPHostF>x</ppsSFTPHostF>".toList
    { full := "<ppsSFTPHostF>x</ppsSFTPHostF>".toList, value := ['x'], isCdata := false }
    (by decide) (by decide)

theorem rewritePass_of_no_match {t : List Char} {ae : Bool} {nv line : List Char}
    (h : findMatches t ae line = []) : rewritePass t ae nv line = line := by
  unfold rewritePass
  rw [h]
  rfl

theorem map_id_of_mem {α : Type} {f : α → α} : ∀ {xs : List α}, (∀ x ∈ xs, f x = x) →
    xs.map f = xs := by
  intro xs
  induction xs with
  | nil => intro _; rfl
  | cons x r ih =>
    intro h
    simp only [List.map_cons]
    rw [h x (by simp), ih (fun y hy => h y (by simp [hy]))]

theorem found_pair_iff (t1 t2 nv l : List Char) :
    ((!(findMatches t1 true l).isEmpty ||
      !(findMatches t2 true (rewritePass t1 true nv l)).isEmpty) = true)
      ↔ (findMatches t1 true l ≠ [] ∨ findMatches t2 true l ≠ []) := by
  by_cases h1 : findMatches t1 true l = []
  · rw [h1, rewritePass_of_no_match h1]
    simp [List.isEmpty_eq_false]
  · simp [h1, List.isEmpty_iff]

/-- C5: the file-transforming updates (`update_sftp_username` of the first
script and `update_sftp_pass_flags` of the second) return true exactly when at
least one of their target tags matches somewhere in the input file, and when
zero tags match the output file is a line-for-line copy of the input. -/
theorem C5_zero_match_behaviour :
    ∀ (newUsername : List Char) (input : List (List Char)),
      ((update_sftp_username newUsername input).1 = true ↔
        ∃ l ∈ input, findMatches ppsSFTPUserF true l ≠ [] ∨
          findMatches neSFTPClientUserF true l ≠ []) ∧
      ((update_sftp_username newUsername input).1 = false →
        (update_sftp_username newUsername input).2 = input) ∧
      ((update_sftp_pass_flags input).1 = true ↔
        ∃ l ∈ input, findMatches ppsSFTPPassFlagF true l ≠ [] ∨
          findMatches neSFTPClientPassFlagF true l ≠ []) ∧
      ((update_sftp_pass_flags input).1 = false → (update_sftp_pass_flags input).2 = input) := by
  intro nu input
  have huser_line : ∀ l, update_sftp_username_found nu l = true ↔
      (findMatches ppsSFTPUserF true l ≠ [] ∨ findMatches neSFTPClientUserF true l ≠ []) := by
    intro l
    exact found_pair_iff ppsSFTPUserF neSFTPClientUserF nu l
  have hflag_line : ∀ l, update_sftp_pass_flags_found l = true ↔
      (findMatches ppsSFTPPassFlagF true l ≠ [] ∨
        findMatches neSFTPClientPassFlagF true l ≠ []) := by
    intro l
    exact found_pair_iff ppsSFTPPassFlagF neSFTPClientPassFlagF ['0'] l
  refine ⟨?_, ?_, ?_, ?_⟩
  · unfold update_sftp_username
    simp only [List.any_eq_true]
    constructor
    · rintro ⟨l, hl, hf⟩; exact ⟨l, hl, (huser_line l).mp hf⟩
    · rintro ⟨l, hl, hf⟩; exact ⟨l, hl, (huser_line l).mpr hf⟩
  · intro hfalse
    unfold update_sftp_username at hfalse ⊢
    simp only [List.any_eq_false] at hfalse
    apply map_id_of_mem
    intro l hl
    have hnot := hfalse l hl
    have h1 : findMatches ppsSFTPUserF true l = [] := by
      by_contra hc
      exact hnot ((huser_line l).mpr (Or.inl hc))
    have h2 : findMatches neSFTPClientUserF true l = [] := by
      by_contra hc
      exact hnot ((huser_line l).mpr (Or.inr hc))
    unfold update_sftp_username_line
    rw [rewritePass_of_no_match h1, rewritePass_of_no_match h2]
  · unfold update_sftp_pass_flags
    simp only [List.any_eq_true]
    constructor
    · rintro ⟨l, hl, hf⟩; exact ⟨l, hl, (hflag_line l).mp hf⟩
    · rintro ⟨l, hl, hf⟩; exact ⟨l, hl, (hflag_line l).mpr hf⟩
  · intro hfalse
    unfold update_sftp_pass_flags at hfalse ⊢
    simp only [List.any_eq_false] at hfalse
    apply map_id_of_mem
    intro l hl
    have hnot := hfalse l hl
    have h1 : findMatches ppsSFTPPassFlagF true l = [] := by
      by_contra hc
      exact hnot ((hflag_line l).mpr (Or.inl hc))
    have h2 : findMatches neSFTPClientPassFlagF true l = [] := by
      by_contra hc
      exact hnot ((hflag_line l).mpr (Or.inr hc))
    unfold update_sftp_pass_flags_line
    rw [rewritePass_of_no_match h1, rewritePass_of_no_match h2]

set_option maxRecDepth 10000 in
theorem C5_zero_match_behaviour_witness :
    (update_sftp_username ['u'] ["<a>b</a>".toList]).2 = ["<a>b</a>".toList] :=
  (C5_zero_match_behaviour ['u'] ["<a>b</a>".toList]).2.1 (by decide)

/-- C6: the CAR payload selection fails exactly when no `.xml` file exists in
the extracted tree, and otherwise deterministically picks the lexicographically
first XML path: the choice is invariant under permutation of the enumeration
order and is a least element of the discovered XML files. -/
theorem C6_extract_car_selection :
    ∀ (files : List (List Char)),
      (extract_car_select files = none ↔ find_xml_files files = []) ∧
      (∀ files', files.Perm files' → extract_car_select files = extract_car_select files') ∧
      (∀ x, extract_car_select files = some x →
        x ∈ find_xml_files files ∧ ∀ y ∈ find_xml_files files, x ≤ y) := by
  intro files
  have hperm := List.perm_insertionSort (· ≤ ·) (find_xml_files files)
  have hsort := List.sorted_insertionSort (· ≤ ·) (find_xml_files files)
  refine ⟨?_, ?_, ?_⟩
  · unfold extract_car_select
    rw [List.head?_eq_none_iff]
    constructor
    · intro h
      have := hperm.length_eq
      rw [h] at this
      exact List.length_eq_zero.mp this.symm
    · intro h
      rw [h]
      rfl
  · intro files' hpf
    unfold extract_car_select
    have hfilter : (find_xml_files files).Perm (find_xml_files files') :=
      List.Perm.filter isXmlName hpf
    have hss : (List.insertionSort (· ≤ ·) (find_xml_files files)).Perm
        (List.insertionSort (· ≤ ·) (find_xml_files files')) :=
      (List.perm_insertionSort _ _).trans
        (hfilter.trans (List.perm_insertionSort (· ≤ ·) (find_xml_files files')).symm)
    rw [List.eq_of_perm_of_sorted hss (List.sorted_insertionSort _ _)
      (List.sorted_insertionSort _ _)]
  · intro x hx
    unfold extract_car_select at hx
    cases hsl : List.insertionSort (· ≤ ·) (find_xml_files files) with
    | nil => rw [hsl] at hx; exact absurd hx (by simp)
    | cons a rest =>
      rw [hsl] at hx
      simp only [List.head?_cons, Option.some.injEq] at hx
      rw [hsl] at hperm hsort
      rw [← hx]
      constructor
      · exact hperm.mem_iff.mp (by simp)
      · intro y hy
        have hy' : y ∈ a :: rest := hperm.mem_iff.mpr hy
        rcases List.mem_cons.mp hy' with h | h
        · exact le_of_eq h.symm
        · exact (List.sorted_cons.mp hsort).1 y h

set_option maxRecDepth 10000 in
theorem C6_extract_car_selection_witness :
    ("a.xml".toList ∈ find_xml_files ["b.xml".toList, "a.xml".toList, "c.txt".toList] ∧
      ∀ y ∈ find_xml_files ["b.xml".toList, "a.xml".toList, "c.txt".toList],
        "a.xml".toList ≤ y) :=
  (C6_extract_car_selection ["b.xml".toList, "a.xml".toList, "c.txt".toList]).2.2
    "a.xml".toList (by decide)

/-- C9: the mkdir script lines are the input commands with duplicate strings
removed (set semantics) and sorted lexicographically; the output is determined
by the membership of the input alone (hence independent of tag-encounter
order), and passing the same `(tag, path)` entry twice yields the same output
as passing it once. -/
theorem C9_mkdir_script_dedup_sorted :
    ∀ (commands : List (List Char)),
      List.Sorted (· ≤ ·) (write_mkdir_script commands) ∧
      (write_mkdir_script commands).Nodup ∧
      (∀ c, c ∈ write_mkdir_script commands ↔ c ∈ commands) ∧
      (∀ commands', (∀ c, c ∈ commands ↔ c ∈ commands') →
        write_mkdir_script commands = write_mkdir_script commands') ∧
      (∀ (e : List Char × List Char) (ps : List (List Char × List Char)) (pre : List Char),
        write_mkdir_script (create_mkdir_commands (e :: e :: ps) pre)
          = write_mkdir_script (create_mkdir_commands (e :: ps) pre)) := by
  have hmem : ∀ (commands : List (List Char)) (c : List Char),
      c ∈ write_mkdir_script commands ↔ c ∈ commands := by
    intro commands c
    unfold write_mkdir_script
    exact ((List.perm_insertionSort _ _).mem_iff).trans List.mem_dedup
  have hext : ∀ (c1 c2 : List (List Char)), (∀ c, c ∈ c1 ↔ c ∈ c2) →
      write_mkdir_script c1 = write_mkdir_script c2 := by
    intro c1 c2 h
    unfold write_mkdir_script
    have hdp : c1.dedup.Perm c2.dedup := by
      rw [List.perm_ext_iff_of_nodup (List.nodup_dedup c1) (List.nodup_dedup c2)]
      intro a
      rw [List.mem_dedup, List.mem_dedup]
      exact h a
    have hss : (List.insertionSort (· ≤ ·) c1.dedup).Perm
        (List.insertionSort (· ≤ ·) c2.dedup) :=
      (List.perm_insertionSort _ _).trans
        (hdp.trans (List.perm_insertionSort (· ≤ ·) c2.dedup).symm)
    exact List.eq_of_perm_of_sorted hss (List.sorted_insertionSort _ _)
      (List.sorted_insertionSort _ _)
  intro commands
  refine ⟨List.sorted_insertionSort _ _,
    ((List.perm_insertionSort _ _).nodup_iff).mpr (List.nodup_dedup _),
    hmem commands, hext commands, ?_⟩
  intro e ps pre
  apply hext
  intro c
  unfold create_mkdir_commands
  simp only [List.map_cons, List.mem_cons]
  constructor
  · rintro (h | h | h) <;> simp [h]
  · rintro (h | h) <;> simp [h]

theorem C9_mkdir_script_dedup_sorted_witness :
    write_mkdir_script [['a'], ['b'], ['a']] = write_mkdir_script [['b'], ['a']] :=
  (C9_mkdir_script_dedup_sorted [['a'], ['b'], ['a']]).2.2.2.1 [['b'], ['a']]
    (by intro c; simp [List.mem_cons]; tauto)

set_option maxRecDepth 10000 in
/-- C7: the cleanup pass deletes every XML file whose name lacks the
`_modified` marker and renames the remaining marked XML files by removing the
marker: the two source passes compose to a single filter-and-rename, every XML
file surviving cleanup originates from a marked XML input file, and the
archive holding `a.xml` and `a_modified.xml` ends up holding exactly `a.xml`
(the renamed `a_modified.xml`). -/
theorem C7_cleanup_pass :
    (∀ fs : List FsFile,
      cleanup_and_repackage_car fs
        = (fs.filter (fun f => !(isXmlName f.name && !(containsSub modMarker f.name)))).map
            (fun f =>
              if isXmlName f.name && containsSub modMarker f.name then
                { f with name := replaceAll modMarker [] f.name }
              else f)) ∧
    (∀ (fs : List FsFile) (g : FsFile), g ∈ cleanup_and_repackage_car fs →
      isXmlName g.name = true →
      ∃ f ∈ fs, isXmlName f.name = true ∧ containsSub modMarker f.name = true ∧
        g = { f with name := replaceAll modMarker [] f.name }) ∧
    (∀ d c1 c2, cleanup_and_repackage_car
        [{ dir := d, name := "a.xml".toList, content := c1 },
         { dir := d, name := "a_modified.xml".toList, content := c2 }]
      = [{ dir := d, name := "a.xml".toList, content := c2 }]) := by
  have hchar : ∀ fs : List FsFile,
      cleanup_and_repackage_car fs
        = (fs.filter (fun f => !(isXmlName f.name && !(containsSub modMarker f.name)))).map
            (fun f =>
              if isXmlName f.name && containsSub modMarker f.name then
                { f with name := replaceAll modMarker [] f.name }
              else f) := by
    intro fs
    induction fs with
    | nil => rfl
    | cons f r ih =>
      unfold cleanup_and_repackage_car at ih ⊢
      by_cases h : (isXmlName f.name && !(containsSub modMarker f.name)) = true
      · have hdel : delete_unmodified_xml (f :: r) = delete_unmodified_xml r := by
          simp only [delete_unmodified_xml, if_pos h]
        have hfil : List.filter
              (fun f => !(isXmlName f.name && !(containsSub modMarker f.name))) (f :: r)
            = List.filter
              (fun f => !(isXmlName f.name && !(containsSub modMarker f.name))) r := by
          rw [List.filter_cons, if_neg]
          rw [h]
          simp
        rw [hdel, hfil]
        exact ih
      · have hdel : delete_unmodified_xml (f :: r) = f :: delete_unmodified_xml r := by
          simp only [delete_unmodified_xml, if_neg h]
        have hkeep : (!(isXmlName f.name && !(containsSub modMarker f.name))) = true := by
          simp only [Bool.not_eq_true] at h
          rw [h]
          rfl
        have hfil : List.filter
              (fun f => !(isXmlName f.name && !(containsSub modMarker f.name))) (f :: r)
            = f :: List.filter
              (fun f => !(isXmlName f.name && !(containsSub modMarker f.name))) r := by
          rw [List.filter_cons, if_pos hkeep]
        rw [hdel, hfil, List.map_cons]
        simp only [rename_modified_xml_files]
        rw [ih]
  refine ⟨hchar, ?_, by intro d c1 c2; rfl⟩
  intro fs g hg hxml
  rw [hchar fs] at hg
  rw [List.mem_map] at hg
  obtain ⟨f, hf, hgf⟩ := hg
  rw [List.mem_filter] at hf
  obtain ⟨hfs, hkeep⟩ := hf
  by_cases hx : isXmlName f.name = true
  · have hmk : containsSub modMarker f.name = true := by
      by_contra hc
      rw [hx] at hkeep
      simp only [Bool.not_eq_true] at hc
      rw [hc] at hkeep
      simp at hkeep
    refine ⟨f, hfs, hx, hmk, ?_⟩
    rw [← hgf, if_pos (by rw [hx, hmk]; rfl)]
  · exfalso
    have : g = f := by
      rw [← hgf, if_neg]
      intro hc
      rw [Bool.and_eq_true] at hc
      exact hx hc.1
    rw [this] at hxml
    exact hx hxml

set_option maxRecDepth 10000 in
theorem C7_cleanup_pass_witness :
    ∃ f ∈ ([{ dir := ['d'], name := "b_modified.xml".toList, content := ['y'] }] : List FsFile),
      isXmlName f.name = true ∧ containsSub modMarker f.name = true ∧
      ({ dir := ['d'], name := "b.xml".toList, content := ['y'] } : FsFile)
        = { f with name := replaceAll modMarker [] f.name } :=
  C7_cleanup_pass.2.1
    [{ dir := ['d'], name := "b_modified.xml".toList, content := ['y'] }]
    { dir := ['d'], name := "b.xml".toList, content := ['y'] }
    (by decide) (by decide)

set_option maxRecDepth 10000 in
/-- C8 counterexample: the paths-stage intermediate is named with the bare
`_temp` inserted before the extension (line 767), but the end-of-run sweep
only checks the numbered names `_temp1` .. `_temp6` (lines 934-941), so a
leftover `_temp` file matching the pipeline naming pattern is not deleted by
the sweep. -/
theorem C8_counterexample :
    paths_temp_name "out".toList ".xml".toList
      ∉ sweep_temp_names "out".toList ".xml".toList := by
  decide

/-- C8 amended: the end-of-run sweep checks exactly the numbered names
`_temp1` .. `_temp6`; every numbered stage intermediate (`_temp2` .. `_temp6`)
is covered, but the unnumbered paths-stage `_temp` name is never among the
swept names (for any output base name and extension). -/
theorem C8_sweep_temp_names :
    ∀ (base ext : List Char),
      sweep_temp_names base ext
        = [numbered_temp_name base ext 1, numbered_temp_name base ext 2,
           numbered_temp_name base ext 3, numbered_temp_name base ext 4,
           numbered_temp_name base ext 5, numbered_temp_name base ext 6] ∧
      (∀ i, 2 ≤ i → i ≤ 6 → numbered_temp_name base ext i ∈ sweep_temp_names base ext) ∧
      paths_temp_name base ext ∉ sweep_temp_names base ext := by
  intro base ext
  have hlist : sweep_temp_names base ext
      = [numbered_temp_name base ext 1, numbered_temp_name base ext 2,
         numbered_temp_name base ext 3, numbered_temp_name base ext 4,
         numbered_temp_name base ext 5, numbered_temp_name base ext 6] := rfl
  refine ⟨hlist, ?_, ?_⟩
  · intro i h2 h6
    rw [hlist]
    interval_cases i <;> simp [List.mem_cons]
  · intro hmem
    rw [hlist] at hmem
    have hlen : ∀ k : Nat, ((Nat.repr k).toList).length = 1 → 
        paths_temp_name base ext ≠ numbered_temp_name base ext k := by
      intro k hk heq
      have h := congrArg List.length heq
      simp only [paths_temp_name, numbered_temp_name, List.length_append, hk] at h
      omega
    rcases List.mem_cons.mp hmem with h | hmem
    · exact hlen 1 (by decide) h
    rcases List.mem_cons.mp hmem with h | hmem
    · exact hlen 2 (by decide) h
    rcases List.mem_cons.mp hmem with h | hmem
    · exact hlen 3 (by decide) h
    rcases List.mem_cons.mp hmem with h | hmem
    · exact hlen 4 (by decide) h
    rcases List.mem_cons.mp hmem with h | hmem
    · exact hlen 5 (by decide) h
    rcases List.mem_cons.mp hmem with h | hmem
    · exact hlen 6 (by decide) h
    · exact absurd hmem (by simp)

theorem C8_sweep_temp_names_witness :
    numbered_temp_name ['o'] ['.', 'x'] 2 ∈ sweep_temp_names ['o'] ['.', 'x'] :=
  (C8_sweep_temp_names ['o'] ['.', 'x']).2.1 2 (by norm_num) (by norm_num)

theorem beginsWith_cancel (x : List Char) : ∀ (a b : List Char),
    beginsWith (x ++ a) (x ++ b) = beginsWith a b := by
  induction x with
  | nil => intro a b; rfl
  | cons c x' ih =>
    intro a b
    simp only [List.cons_append, beginsWith, beq_self_eq_true, Bool.true_and]
    exact ih a b

theorem matchTagHead_ne_lt {t : List Char} {ae : Bool} {c : Char} {z : List Char}
    (hc : ¬(c = '<')) : matchTagHead t ae (c :: z) = none := by
  unfold matchTagHead
  rw [if_neg]
  intro hb
  unfold openTagOf at hb
  simp only [beginsWith, Bool.and_eq_true, beq_iff_eq] at hb
  exact hc hb.1.symm

theorem findMatches_cons_ne_lt {t : List Char} {ae : Bool} {c : Char} {z : List Char}
    (hc : ¬(c = '<')) : findMatches t ae (c :: z) = findMatches t ae z :=
  findMatches_cons_none (matchTagHead_ne_lt hc)

theorem findMatches_append_nolt {t : List Char} {ae : Bool} :
    ∀ {g : List Char}, (∀ c ∈ g, ¬(c = '<')) → ∀ (B : List Char),
      findMatches t ae (g ++ B) = findMatches t ae B := by
  intro g
  induction g with
  | nil => intro _ B; rfl
  | cons c g' ih =>
    intro h B
    rw [List.cons_append, findMatches_cons_ne_lt (h c (by simp))]
    exact ih (fun x hx => h x (by simp [hx])) B

theorem replaceAll_cons_ne_lt {p' r : List Char} {c : Char} {z : List Char}
    (hc : ¬(c = '<')) : replaceAll ('<' :: p') r (c :: z) = c :: replaceAll ('<' :: p') r z := by
  apply replaceAll_cons_neg
  simp only [beginsWith]
  have : ('<' == c) = false := by simpa using fun h => hc h.symm
  simp [this]

theorem replaceAll_append_nolt {p' r : List Char} :
    ∀ {g : List Char}, (∀ c ∈ g, ¬(c = '<')) → ∀ (B : List Char),
      replaceAll ('<' :: p') r (g ++ B) = g ++ replaceAll ('<' :: p') r B := by
  intro g
  induction g with
  | nil => intro _ B; rfl
  | cons c g' ih =>
    intro h B
    rw [List.cons_append, replaceAll_cons_ne_lt (h c (by simp)), ih (fun x hx => h x (by simp [hx])) B]
    rfl

theorem replaceAll_nolt {p' r : List Char} {s : List Char} (h : ∀ c ∈ s, ¬(c = '<')) :
    replaceAll ('<' :: p') r s = s := by
  have := @replaceAll_append_nolt p' r s h []
  simpa [replaceAll_nil] using this

theorem beginsWith_tag_delim : ∀ {t t' : List Char}, '>' ∉ t → '>' ∉ t' →
    ∀ {y x : List Char}, beginsWith (t ++ '>' :: y) (t' ++ '>' :: x) = true → t = t' := by
  intro t
  induction t with
  | nil =>
    intro t' _ h2 y x hb
    cases t' with
    | nil => rfl
    | cons c t'' =>
      exfalso
      simp only [List.nil_append, List.cons_append, beginsWith, Bool.and_eq_true,
        beq_iff_eq] at hb
      exact h2 (by rw [hb.1]; simp)
  | cons a t2 ih =>
    intro t' h1 h2 y x hb
    cases t' with
    | nil =>
      exfalso
      simp only [List.cons_append, List.nil_append, beginsWith, Bool.and_eq_true,
        beq_iff_eq] at hb
      exact h1 (by simp [hb.1])
    | cons c t'' =>
      simp only [List.cons_append, beginsWith, Bool.and_eq_true, beq_iff_eq] at hb
      have hteq := ih (fun h => h1 (by simp [h])) (fun h => h2 (by simp [h])) hb.2
      rw [hb.1, hteq]

theorem eq_of_append_delim {d : Char} : ∀ {v v' A B : List Char},
    (∀ c ∈ v, ¬(c = d)) → (∀ c ∈ v', ¬(c = d)) →
    v ++ d :: A = v' ++ d :: B → v = v' ∧ A = B := by
  intro v
  induction v with
  | nil =>
    intro v' A B _ hv' h
    cases v' with
    | nil =>
      simp only [List.nil_append, List.cons.injEq] at h
      exact ⟨rfl, h.2⟩
    | cons c v'' =>
      exfalso
      simp only [List.nil_append, List.cons_append, List.cons.injEq] at h
      exact hv' c (by simp) h.1.symm
  | cons a v2 ih =>
    intro v' A B hv hv' h
    cases v' with
    | nil =>
      exfalso
      simp only [List.cons_append, List.nil_append, List.cons.injEq] at h
      exact hv a (by simp) h.1
    | cons c v'' =>
      simp only [List.cons_append, List.cons.injEq] at h
      have := ih (fun x hx => hv x (by simp [hx])) (fun x hx => hv' x (by simp [hx])) h.2
      exact ⟨by rw [h.1, this.1], this.2⟩

theorem cdataScan_begins {cp s : List Char} (h : beginsWith cp s = true) :
    cdataScan cp s = some ([], List.drop cp.length s) := by
  cases s with
  | nil => simp only [cdataScan, if_pos h]
  | cons c rest => simp only [cdataScan, if_pos h]

theorem cdataScan_exact {t : List Char} : ∀ {v : List Char} (B : List Char),
    (∀ c ∈ v, ¬(c = '<')) → (∀ c ∈ v, ¬(c = '\n')) →
    cdataScan (cdataCloseMark ++ closeTagOf t) (v ++ ((cdataCloseMark ++ closeTagOf t) ++ B))
      = some (v, B) := by
  intro v
  induction v with
  | nil =>
    intro B _ _
    rw [List.nil_append, cdataScan_begins (beginsWith_append _ B), List.drop_left]
  | cons c v' ih =>
    intro B hv hn
    have hb : beginsWith (cdataCloseMark ++ closeTagOf t)
        (c :: (v' ++ ((cdataCloseMark ++ closeTagOf t) ++ B))) = false := by
      match v' with
      | [] => simp [cdataCloseMark, closeTagOf, beginsWith]
      | [a] => simp [cdataCloseMark, closeTagOf, beginsWith]
      | [a, b] => simp [cdataCloseMark, closeTagOf, beginsWith]
      | a :: b :: d :: v'' =>
        have hd : ('<' == d) = false := by
          simpa using fun h => hv d (by simp) h.symm
        simp [cdataCloseMark, closeTagOf, beginsWith, hd]
    have hb' : ¬ (beginsWith (cdataCloseMark ++ closeTagOf t)
        (c :: (v' ++ ((cdataCloseMark ++ closeTagOf t) ++ B))) = true) := by
      rw [hb]
      simp
    rw [List.cons_append]
    simp only [cdataScan]
    rw [if_neg hb', if_neg (hn c (by simp)),
      ih B (fun x hx => hv x (by simp [hx])) (fun x hx => hn x (by simp [hx]))]

theorem matchTagHead_openTag (t : List Char) (ae : Bool) (X : List Char) :
    matchTagHead t ae (openTagOf t ++ X)
      = match matchCdataAlt t X with
        | some r => some r
        | none => matchPlainAlt t ae X := by
  unfold matchTagHead
  rw [if_pos (beginsWith_append _ _), List.drop_left]

theorem matchCdataAlt_none_cons {t : List Char} {c : Char} {z : List Char}
    (hc : ¬(c = '<')) : matchCdataAlt t (c :: z) = none := by
  unfold matchCdataAlt
  rw [if_neg]
  intro hb
  simp only [cdataOpenMark, beginsWith, Bool.and_eq_true, beq_iff_eq] at hb
  exact hc hb.1.symm

theorem matchCdataAlt_none_lt_ne {t : List Char} {c : Char} {z : List Char}
    (hc : ¬(c = '!')) : matchCdataAlt t ('<' :: c :: z) = none := by
  unfold matchCdataAlt
  rw [if_neg]
  intro hb
  simp only [cdataOpenMark, beginsWith, Bool.and_eq_true, beq_iff_eq] at hb
  exact hc hb.2.1.symm

theorem matchTagHead_lt_ne {t : List Char} {ae : Bool} {c : Char} {z : List Char}
    (ht : tagOk t) (hc : c ∉ t) : matchTagHead t ae ('<' :: c :: z) = none := by
  unfold matchTagHead
  rw [if_neg]
  intro hb
  unfold openTagOf at hb
  simp only [beginsWith, Bool.and_eq_true, beq_iff_eq] at hb
  obtain ⟨a, t2, hat⟩ : ∃ a t2, t = a :: t2 := by
    cases t with
    | nil => exact absurd rfl ht.1
    | cons a t2 => exact ⟨a, t2, rfl⟩
  rw [hat] at hb
  simp only [List.cons_append, beginsWith, Bool.and_eq_true, beq_iff_eq] at hb
  exact hc (by rw [hat, ← hb.2.1]; simp)

theorem matchTagHead_span_cdata {t v : List Char} {ae : Bool}
    (hv : ∀ c ∈ v, ¬(c = '<')) (hn : ∀ c ∈ v, ¬(c = '\n')) (B : List Char) :
    matchTagHead t ae (renderSpan t SpanForm.cdata v ++ B)
      = some ({ full := renderSpan t SpanForm.cdata v, value := v, isCdata := true }, B) := by
  have hsh : renderSpan t SpanForm.cdata v ++ B
      = openTagOf t ++ (cdataOpenMark ++ (v ++ ((cdataCloseMark ++ closeTagOf t) ++ B))) := by
    simp [renderSpan, List.append_assoc]
  have hca : matchCdataAlt t (cdataOpenMark ++ (v ++ ((cdataCloseMark ++ closeTagOf t) ++ B)))
      = some ({ full := renderSpan t SpanForm.cdata v, value := v, isCdata := true }, B) := by
    unfold matchCdataAlt
    rw [if_pos (beginsWith_append _ _), List.drop_left, cdataScan_exact B hv hn]
    rfl
  rw [hsh, matchTagHead_openTag, hca]

theorem takeWhile_nolt_append {v : List Char} (hv : ∀ c ∈ v, ¬(c = '<')) (y : List Char) :
    List.takeWhile (fun c => c ≠ '<') (v ++ '<' :: y) = v := by
  induction v with
  | nil => simp [List.takeWhile]
  | cons c v' ih =>
    rw [List.cons_append, List.takeWhile_cons]
    rw [if_pos (by simpa using hv c (by simp))]
    rw [ih (fun x hx => hv x (by simp [hx]))]

theorem dropWhile_nolt_append {v : List Char} (hv : ∀ c ∈ v, ¬(c = '<')) (y : List Char) :
    List.dropWhile (fun c => c ≠ '<') (v ++ '<' :: y) = '<' :: y := by
  induction v with
  | nil => simp [List.dropWhile]
  | cons c v' ih =>
    rw [List.cons_append, List.dropWhile_cons]
    rw [if_pos (by simpa using hv c (by simp))]
    exact ih (fun x hx => hv x (by simp [hx]))

theorem matchTagHead_span_plain_pos {t v : List Char} {ae : Bool}
    (hv : ∀ c ∈ v, ¬(c = '<')) (hne : v ≠ []) (B : List Char) :
    matchTagHead t ae (renderSpan t SpanForm.plain v ++ B)
      = some ({ full := renderSpan t SpanForm.plain v, value := v, isCdata := false }, B) := by
  have hsh : renderSpan t SpanForm.plain v ++ B
      = openTagOf t ++ (v ++ ('<' :: ('/' :: (t ++ ['>']) ++ B))) := by
    simp [renderSpan, closeTagOf, List.append_assoc]
  have hcd : matchCdataAlt t (v ++ ('<' :: ('/' :: (t ++ ['>']) ++ B))) = none := by
    cases v with
    | nil =>
      rw [List.nil_append]
      exact matchCdataAlt_none_lt_ne (by decide)
    | cons c v' =>
      rw [List.cons_append]
      exact matchCdataAlt_none_cons (hv c (by simp))
  have htk := takeWhile_nolt_append hv ('/' :: (t ++ ['>']) ++ B)
  have hdr := dropWhile_nolt_append hv ('/' :: (t ++ ['>']) ++ B)
  rw [hsh, matchTagHead_openTag, hcd]
  unfold matchPlainAlt
  rw [if_pos]
  · have hfull : openTagOf t ++ List.takeWhile (fun c => c ≠ '<')
          (v ++ ('<' :: ('/' :: (t ++ ['>']) ++ B))) ++ closeTagOf t
        = renderSpan t SpanForm.plain v := by
      rw [htk]; rfl
    rw [htk, hdr]
    have hclose : ('<' :: ('/' :: (t ++ ['>']) ++ B) : List Char) = closeTagOf t ++ B := by
      simp [closeTagOf]
    rw [hclose, List.drop_left]
    rfl
  · constructor
    · rw [htk]; exact hne
    · rw [hdr]
      have hclose : ('<' :: ('/' :: (t ++ ['>']) ++ B) : List Char) = closeTagOf t ++ B := by
        simp [closeTagOf]
      rw [hclose]
      exact beginsWith_append _ _

theorem matchTagHead_span_plain_empty {t : List Char} {ae : Bool} (B : List Char) :
    matchTagHead t ae (renderSpan t SpanForm.plain [] ++ B)
      = if ae = true then
          some ({ full := renderSpan t SpanForm.plain [], value := [], isCdata := false }, B)
        else none := by
  have hsh : renderSpan t SpanForm.plain [] ++ B = openTagOf t ++ (closeTagOf t ++ B) := by
    simp [renderSpan]
  have hcd : matchCdataAlt t (closeTagOf t ++ B) = none := by
    have : (closeTagOf t ++ B : List Char) = '<' :: '/' :: (t ++ ['>'] ++ B) := by
      simp [closeTagOf]
    rw [this]
    exact matchCdataAlt_none_lt_ne (by decide)
  have htk : List.takeWhile (fun c => c ≠ '<') (closeTagOf t ++ B) = [] := by
    simp [closeTagOf, List.takeWhile_cons]
  rw [hsh, matchTagHead_openTag, hcd]
  unfold matchPlainAlt
  rw [if_neg (by rw [htk]; simp)]
  cases ae with
  | true =>
    rw [if_pos ⟨rfl, beginsWith_append _ _⟩, if_pos rfl, List.drop_left]
    have : (openTagOf t ++ closeTagOf t : List Char) = renderSpan t SpanForm.plain [] := by
      simp [renderSpan]
    rw [this]
  | false =>
    rw [if_neg (by simp), if_neg (by simp)]

theorem beginsWith_openTag_span_ne {t t' : List Char} (ht : tagOk t) (ht' : tagOk t')
    (hne : ¬(t = t')) (X : List Char) :
    beginsWith (openTagOf t) ('<' :: (t' ++ '>' :: X)) = false := by
  cases hb : beginsWith (openTagOf t) ('<' :: (t' ++ '>' :: X)) with
  | false => rfl
  | true =>
    exfalso
    unfold openTagOf at hb
    simp only [beginsWith, Bool.and_eq_true, beq_iff_eq] at hb
    have : (t ++ ['>'] : List Char) = t ++ '>' :: [] := rfl
    rw [this] at hb
    have heq := beginsWith_tag_delim ht.2.2.1 ht'.2.2.1 hb.2
    exact hne heq

theorem matchTagHead_span_other {t t' v : List Char} {ae : Bool} {form : SpanForm}
    (ht : tagOk t) (ht' : tagOk t') (hne : ¬(t = t')) (B : List Char) :
    matchTagHead t ae (renderSpan t' form v ++ B) = none := by
  have hsh : ∃ X, renderSpan t' form v ++ B = '<' :: (t' ++ '>' :: X) := by
    cases form with
    | plain =>
      refine ⟨v ++ (closeTagOf t' ++ B), ?_⟩
      simp [renderSpan, openTagOf, List.append_assoc]
    | cdata =>
      refine ⟨cdataOpenMark ++ (v ++ (cdataCloseMark ++ (closeTagOf t' ++ B))), ?_⟩
      simp [renderSpan, openTagOf, List.append_assoc]
  obtain ⟨X, hX⟩ := hsh
  rw [hX]
  unfold matchTagHead
  rw [if_neg (by rw [beginsWith_openTag_span_ne ht ht' hne X]; simp)]

theorem findMatches_head_some {t : List Char} {ae : Bool} {s : List Char} {m : TagMatch}
    {rem : List Char} (h : matchTagHead t ae s = some (m, rem)) :
    findMatches t ae s = m :: findMatches t ae rem := by
  obtain ⟨hs, hne⟩ := matchTagHead_decomp h
  cases s with
  | nil =>
    exfalso
    rcases List.append_eq_nil.mp hs.symm with ⟨h1, _⟩
    exact hne h1
  | cons c z => exact findMatches_cons_some h

theorem findMatches_head_none {t : List Char} {ae : Bool} {c : Char} {z : List Char}
    (h : matchTagHead t ae (c :: z) = none) :
    findMatches t ae (c :: z) = findMatches t ae z := findMatches_cons_none h

theorem nolt_tagOk {t : List Char} (ht : tagOk t) : ∀ c ∈ t, ¬(c = '<') :=
  fun c hc h => ht.2.1 (h ▸ hc)

theorem nolt_nil : ∀ c ∈ ([] : List Char), ¬(c = '<') := by simp

theorem findMatches_span_skip {t t' v : List Char} {ae : Bool} {form : SpanForm}
    (ht : tagOk t) (ht' : tagOk t') (hv : ∀ c ∈ v, ¬(c = '<')) (B : List Char)
    (hnone : matchTagHead t ae (renderSpan t' form v ++ B) = none) :
    findMatches t ae (renderSpan t' form v ++ B) = findMatches t ae B := by
  cases form with
  | plain =>
    have hsh : renderSpan t' SpanForm.plain v ++ B
        = '<' :: ((t' ++ '>' :: v) ++ ('<' :: (('/' :: (t' ++ ['>'])) ++ B))) := by
      simp [renderSpan, openTagOf, closeTagOf, List.append_assoc]
    rw [hsh] at hnone ⊢
    rw [findMatches_head_none hnone]
    rw [findMatches_append_nolt (List.forall_mem_append.mpr
      ⟨nolt_tagOk ht', List.forall_mem_cons.mpr ⟨by decide, hv⟩⟩)]
    rw [show ('<' :: (('/' :: (t' ++ ['>'])) ++ B) : List Char)
        = '<' :: '/' :: ((t' ++ ['>']) ++ B) from rfl]
    rw [findMatches_head_none (matchTagHead_lt_ne ht ht.2.2.2.1)]
    rw [show ('/' :: ((t' ++ ['>']) ++ B) : List Char) = ('/' :: (t' ++ ['>'])) ++ B from rfl]
    rw [findMatches_append_nolt (List.forall_mem_cons.mpr ⟨by decide,
      List.forall_mem_append.mpr ⟨nolt_tagOk ht',
        List.forall_mem_cons.mpr ⟨by decide, nolt_nil⟩⟩⟩)]
  | cdata =>
    have hsh : renderSpan t' SpanForm.cdata v ++ B
        = '<' :: ((t' ++ ['>'])
            ++ ('<' :: (('!' :: '[' :: 'C' :: 'D' :: 'A' :: 'T' :: 'A' :: '[' ::
                  (v ++ cdataCloseMark)) ++ ('<' :: (('/' :: (t' ++ ['>'])) ++ B))))) := by
      simp [renderSpan, openTagOf, closeTagOf, cdataOpenMark, cdataCloseMark,
        List.append_assoc]
    rw [hsh] at hnone ⊢
    rw [findMatches_head_none hnone]
    rw [findMatches_append_nolt (List.forall_mem_append.mpr
      ⟨nolt_tagOk ht', List.forall_mem_cons.mpr ⟨by decide, nolt_nil⟩⟩)]
    rw [show ('<' :: (('!' :: '[' :: 'C' :: 'D' :: 'A' :: 'T' :: 'A' :: '[' ::
          (v ++ cdataCloseMark)) ++ ('<' :: (('/' :: (t' ++ ['>'])) ++ B))) : List Char)
        = '<' :: '!' :: (('[' :: 'C' :: 'D' :: 'A' :: 'T' :: 'A' :: '[' ::
          (v ++ cdataCloseMark)) ++ ('<' :: (('/' :: (t' ++ ['>'])) ++ B))) from rfl]
    rw [findMatches_head_none (matchTagHead_lt_ne ht ht.2.2.2.2)]
    rw [show ('!' :: (('[' :: 'C' :: 'D' :: 'A' :: 'T' :: 'A' :: '[' ::
          (v ++ cdataCloseMark)) ++ ('<' :: (('/' :: (t' ++ ['>'])) ++ B))) : List Char)
        = ('!' :: '[' :: 'C' :: 'D' :: 'A' :: 'T' :: 'A' :: '[' :: (v ++ cdataCloseMark))
            ++ ('<' :: (('/' :: (t' ++ ['>'])) ++ B)) from rfl]
    rw [findMatches_append_nolt (List.forall_mem_cons.mpr ⟨by decide,
      List.forall_mem_cons.mpr ⟨by decide,
      List.forall_mem_cons.mpr ⟨by decide,
      List.forall_mem_cons.mpr ⟨by decide,
      List.forall_mem_cons.mpr ⟨by decide,
      List.forall_mem_cons.mpr ⟨by decide,
      List.forall_mem_cons.mpr ⟨by decide,
      List.forall_mem_cons.mpr ⟨by decide,
      List.forall_mem_append.mpr ⟨hv, by decide⟩⟩⟩⟩⟩⟩⟩⟩⟩)]
    rw [show ('<' :: (('/' :: (t' ++ ['>'])) ++ B) : List Char)
        = '<' :: '/' :: ((t' ++ ['>']) ++ B) from rfl]
    rw [findMatches_head_none (matchTagHead_lt_ne ht ht.2.2.2.1)]
    rw [show ('/' :: ((t' ++ ['>']) ++ B) : List Char) = ('/' :: (t' ++ ['>'])) ++ B from rfl]
    rw [findMatches_append_nolt (List.forall_mem_cons.mpr ⟨by decide,
      List.forall_mem_append.mpr ⟨nolt_tagOk ht',
        List.forall_mem_cons.mpr ⟨by decide, nolt_nil⟩⟩⟩)]

theorem findMatches_renderLine {t : List Char} {ae : Bool} (ht : tagOk t) :
    ∀ (segs : List SpanSeg) (tail : List Char), segsOk segs tail →
      findMatches t ae (renderLine segs tail)
        = (segs.filter (spanMatches t ae)).map toTagMatch := by
  intro segs
  induction segs with
  | nil =>
    intro tail hok
    have h := @findMatches_append_nolt t ae tail hok.2 []
    simp only [List.append_nil] at h
    simpa [renderLine, findMatches_nil] using h
  | cons sg rest ih =>
    intro tail hok
    obtain ⟨gap, tg, form, val⟩ := sg
    have hsg : segOk ⟨gap, tg, form, val⟩ := hok.1 _ (by simp)
    have hok' : segsOk rest tail := ⟨fun x hx => hok.1 x (by simp [hx]), hok.2⟩
    simp only [renderLine]
    rw [findMatches_append_nolt hsg.1]
    by_cases htag : tg = t
    · subst htag
      cases form with
      | cdata =>
        rw [findMatches_head_some
          (matchTagHead_span_cdata hsg.2.2.1 hsg.2.2.2 (renderLine rest tail))]
        rw [ih tail hok']
        rw [List.filter_cons, if_pos (by simp [spanMatches]), List.map_cons]
        congr 1
      | plain =>
        by_cases hval : val = []
        · subst hval
          cases ae with
          | true =>
            have hm := @matchTagHead_span_plain_empty tg true (renderLine rest tail)
            rw [if_pos rfl] at hm
            rw [findMatches_head_some hm, ih tail hok']
            rw [List.filter_cons, if_pos (by simp [spanMatches]), List.map_cons]
            congr 1
          | false =>
            have hm := @matchTagHead_span_plain_empty tg false (renderLine rest tail)
            rw [if_neg (by simp)] at hm
            rw [findMatches_span_skip ht ht (by simp) _ hm, ih tail hok']
            rw [List.filter_cons, if_neg (by simp [spanMatches])]
        · have hm := @matchTagHead_span_plain_pos tg val ae hsg.2.2.1 hval
            (renderLine rest tail)
          rw [findMatches_head_some hm, ih tail hok']
          rw [List.filter_cons, if_pos (by simp [spanMatches, hval]), List.map_cons]
          congr 1
    · have hm := @matchTagHead_span_other t tg val ae form ht hsg.2.1
        (fun h => htag h.symm) (renderLine rest tail)
      rw [findMatches_span_skip ht hsg.2.1 hsg.2.2.1 _ hm, ih tail hok']
      rw [List.filter_cons, if_neg (by simp [spanMatches, htag])]

theorem renderSpan_shape (t : List Char) (form : SpanForm) (v : List Char) :
    renderSpan t form v = '<' :: (t ++ '>' :: spanBody t form v) := by
  cases form with
  | plain => simp [renderSpan, spanBody, openTagOf, List.append_assoc]
  | cdata => simp [renderSpan, spanBody, openTagOf, List.append_assoc]

theorem cdataOpenMark_append (Y : List Char) :
    cdataOpenMark ++ Y = '<' :: '!' :: '[' :: 'C' :: 'D' :: 'A' :: 'T' :: 'A' :: '[' :: Y := rfl

theorem beginsWith_span_inj {t t' v v' : List Char} {form form' : SpanForm} {B : List Char}
    (ht : tagOk t) (ht' : tagOk t') (hv : ∀ c ∈ v, ¬(c = '<')) (hv' : ∀ c ∈ v', ¬(c = '<'))
    (hb : beginsWith (renderSpan t form v) (renderSpan t' form' v' ++ B) = true) :
    t = t' ∧ form = form' ∧ v = v' := by
  obtain ⟨R, hR⟩ := beginsWith_iff.mp hb
  rw [renderSpan_shape t form v, renderSpan_shape t' form' v'] at hR
  rw [List.cons_append, List.cons_append] at hR
  injection hR with _ h2
  simp only [List.append_assoc, List.cons_append] at h2
  have hR' : t ++ '>' :: (spanBody t form v ++ R)
      = t' ++ '>' :: (spanBody t' form' v' ++ B) := h2.symm
  obtain ⟨hteq, hbody⟩ := eq_of_append_delim
    (fun c hc h => ht.2.2.1 (by rw [← h]; exact hc))
    (fun c hc h => ht'.2.2.1 (by rw [← h]; exact hc)) hR'
  refine ⟨hteq, ?_⟩
  rw [← hteq] at hbody
  have hplainL : ∀ (u RR : List Char), spanBody t SpanForm.plain u ++ RR
      = u ++ ('<' :: (('/' :: (t ++ ['>'])) ++ RR)) := by
    intro u RR
    simp [spanBody, closeTagOf, List.append_assoc]
  have hcdataL : ∀ (u RR : List Char), spanBody t SpanForm.cdata u ++ RR
      = '<' :: ('!' :: '[' :: 'C' :: 'D' :: 'A' :: 'T' :: 'A' :: '[' ::
          ((u ++ (cdataCloseMark ++ closeTagOf t)) ++ RR)) := by
    intro u RR
    simp only [spanBody, List.append_assoc]
    rw [cdataOpenMark_append]
  cases form with
  | plain =>
    cases form' with
    | plain =>
      refine ⟨rfl, ?_⟩
      rw [hplainL v R, hplainL v' B] at hbody
      exact (eq_of_append_delim hv hv' hbody).1
    | cdata =>
      exfalso
      rw [hplainL v R, hcdataL v' B] at hbody
      have h3 : v ++ '<' :: (('/' :: (t ++ ['>'])) ++ R)
          = ([] : List Char) ++ '<' :: ('!' :: '[' :: 'C' :: 'D' :: 'A' :: 'T' :: 'A' :: '[' ::
              ((v' ++ (cdataCloseMark ++ closeTagOf t)) ++ B)) := hbody
      have h4 := (eq_of_append_delim hv (by simp) h3).2
      have h5 : ('/' : Char) = '!' := by
        have h6 : ('/' :: ((t ++ ['>']) ++ R) : List Char)
            = '!' :: '[' :: 'C' :: 'D' :: 'A' :: 'T' :: 'A' :: '[' ::
                ((v' ++ (cdataCloseMark ++ closeTagOf t)) ++ B) := by
          simpa [List.append_assoc] using h4
        injection h6
      exact absurd h5 (by decide)
  | cdata =>
    cases form' with
    | plain =>
      exfalso
      rw [hcdataL v R, hplainL v' B] at hbody
      have h3 : ([] : List Char) ++ '<' :: ('!' :: '[' :: 'C' :: 'D' :: 'A' :: 'T' :: 'A' :: '[' ::
              ((v ++ (cdataCloseMark ++ closeTagOf t)) ++ R))
          = v' ++ '<' :: (('/' :: (t ++ ['>'])) ++ B) := hbody
      have h4 := (eq_of_append_delim (by simp) hv' h3).2
      have h5 : ('!' : Char) = '/' := by
        have h6 : ('!' :: '[' :: 'C' :: 'D' :: 'A' :: 'T' :: 'A' :: '[' ::
                ((v ++ (cdataCloseMark ++ closeTagOf t)) ++ R) : List Char)
            = '/' :: ((t ++ ['>']) ++ B) := by
          simpa [List.append_assoc] using h4
        injection h6
      exact absurd h5 (by decide)
    | cdata =>
      refine ⟨rfl, ?_⟩
      rw [hcdataL v R, hcdataL v' B] at hbody
      have h3 : (v ++ (cdataCloseMark ++ closeTagOf t)) ++ R
          = (v' ++ (cdataCloseMark ++ closeTagOf t)) ++ B := by
        injection hbody with _ h
        injection h with _ h
        injection h with _ h
        injection h with _ h
        injection h with _ h
        injection h with _ h
        injection h with _ h
        injection h with _ h
        injection h with _ h
      have hsh : ∀ (u RR : List Char), (u ++ (cdataCloseMark ++ closeTagOf t)) ++ RR
          = (u ++ cdataCloseMark) ++ ('<' :: (('/' :: (t ++ ['>'])) ++ RR)) := by
        intro u RR
        simp [closeTagOf, List.append_assoc]
      rw [hsh v R, hsh v' B] at h3
      have hvf : ∀ c ∈ v ++ cdataCloseMark, ¬(c = '<') :=
        List.forall_mem_append.mpr ⟨hv, by decide⟩
      have hvf' : ∀ c ∈ v' ++ cdataCloseMark, ¬(c = '<') :=
        List.forall_mem_append.mpr ⟨hv', by decide⟩
      have h4 : (v ++ cdataCloseMark) ++ '<' :: (('/' :: (t ++ ['>'])) ++ R)
          = (v' ++ cdataCloseMark) ++ '<' :: (('/' :: (t ++ ['>'])) ++ B) := h3
      exact List.append_cancel_right (eq_of_append_delim hvf hvf' h4).1

theorem renderSpan_ne_nil (t : List Char) (form : SpanForm) (v : List Char) :
    renderSpan t form v ≠ [] := by
  rw [renderSpan_shape]
  simp

theorem replaceAll_head {p rep X : List Char} (hp : p ≠ []) :
    replaceAll p rep (p ++ X) = rep ++ replaceAll p rep X := by
  cases p with
  | nil => exact absurd rfl hp
  | cons c p2 =>
    rw [show ((c :: p2) ++ X : List Char) = c :: (p2 ++ X) from rfl]
    rw [replaceAll_cons_pos hp
      (by rw [show (c :: (p2 ++ X) : List Char) = (c :: p2) ++ X from rfl]
          exact beginsWith_append _ _)]
    congr 1
    rw [show (c :: (p2 ++ X) : List Char) = (c :: p2) ++ X from rfl, List.drop_left]

theorem beginsWith_tagPat_lt_ne {t y : List Char} {c2 : Char} {z : List Char}
    (ht : tagOk t) (hc : c2 ∉ t) :
    beginsWith ('<' :: (t ++ '>' :: y)) ('<' :: c2 :: z) = false := by
  obtain ⟨a, t2, hat⟩ : ∃ a t2, t = a :: t2 := by
    cases t with
    | nil => exact absurd rfl ht.1
    | cons a t2 => exact ⟨a, t2, rfl⟩
  rw [hat]
  simp only [List.cons_append, beginsWith]
  have ha : ¬(a = c2) := by
    intro h
    exact hc (by rw [← h, hat]; simp)
  simp [ha]

theorem replaceAll_span_step {t v w t2 v2 : List Char} {form form' form2 : SpanForm}
    (ht : tagOk t) (ht2 : tagOk t2) (hv : ∀ c ∈ v, ¬(c = '<')) (hv2 : ∀ c ∈ v2, ¬(c = '<'))
    (B : List Char) :
    replaceAll (renderSpan t form v) (renderSpan t form' w) (renderSpan t2 form2 v2 ++ B)
      = (if t2 = t ∧ form2 = form ∧ v2 = v then renderSpan t form' w
         else renderSpan t2 form2 v2)
          ++ replaceAll (renderSpan t form v) (renderSpan t form' w) B := by
  by_cases hcond : (t2 = t ∧ form2 = form ∧ v2 = v)
  · rw [if_pos hcond]
    obtain ⟨h1, h2, h3⟩ := hcond
    rw [h1, h2, h3]
    exact replaceAll_head (renderSpan_ne_nil t form v)
  · rw [if_neg hcond]
    have hb0 : beginsWith (renderSpan t form v) (renderSpan t2 form2 v2 ++ B) = false := by
      cases hbb : beginsWith (renderSpan t form v) (renderSpan t2 form2 v2 ++ B) with
      | false => rfl
      | true =>
        obtain ⟨a, b, c⟩ := beginsWith_span_inj ht ht2 hv hv2 hbb
        exact absurd ⟨a.symm, b.symm, c.symm⟩ hcond
    rw [renderSpan_shape t form v] at hb0 ⊢
    cases form2 with
    | plain =>
      have hsh : renderSpan t2 SpanForm.plain v2 ++ B
          = '<' :: ((t2 ++ '>' :: v2) ++ ('<' :: (('/' :: (t2 ++ ['>'])) ++ B))) := by
        simp [renderSpan, openTagOf, closeTagOf, List.append_assoc]
      rw [hsh] at hb0 ⊢
      rw [replaceAll_cons_neg hb0]
      rw [replaceAll_append_nolt (List.forall_mem_append.mpr
        ⟨nolt_tagOk ht2, List.forall_mem_cons.mpr ⟨by decide, hv2⟩⟩)]
      rw [show ('<' :: (('/' :: (t2 ++ ['>'])) ++ B) : List Char)
          = '<' :: '/' :: ((t2 ++ ['>']) ++ B) from rfl]
      rw [replaceAll_cons_neg (beginsWith_tagPat_lt_ne ht ht.2.2.2.1)]
      rw [show ('/' :: ((t2 ++ ['>']) ++ B) : List Char)
          = ('/' :: (t2 ++ ['>'])) ++ B from rfl]
      rw [replaceAll_append_nolt (List.forall_mem_cons.mpr ⟨by decide,
        List.forall_mem_append.mpr ⟨nolt_tagOk ht2,
          List.forall_mem_cons.mpr ⟨by decide, nolt_nil⟩⟩⟩)]
      simp [renderSpan, openTagOf, closeTagOf, List.append_assoc]
    | cdata =>
      have hsh : renderSpan t2 SpanForm.cdata v2 ++ B
          = '<' :: ((t2 ++ ['>'])
              ++ ('<' :: (('!' :: '[' :: 'C' :: 'D' :: 'A' :: 'T' :: 'A' :: '[' ::
                    (v2 ++ cdataCloseMark)) ++ ('<' :: (('/' :: (t2 ++ ['>'])) ++ B))))) := by
        simp [renderSpan, openTagOf, closeTagOf, cdataOpenMark, cdataCloseMark,
          List.append_assoc]
      rw [hsh] at hb0 ⊢
      rw [replaceAll_cons_neg hb0]
      rw [replaceAll_append_nolt (List.forall_mem_append.mpr
        ⟨nolt_tagOk ht2, List.forall_mem_cons.mpr ⟨by decide, nolt_nil⟩⟩)]
      rw [show ('<' :: (('!' :: '[' :: 'C' :: 'D' :: 'A' :: 'T' :: 'A' :: '[' ::
            (v2 ++ cdataCloseMark)) ++ ('<' :: (('/' :: (t2 ++ ['>'])) ++ B))) : List Char)
          = '<' :: '!' :: (('[' :: 'C' :: 'D' :: 'A' :: 'T' :: 'A' :: '[' ::
            (v2 ++ cdataCloseMark)) ++ ('<' :: (('/' :: (t2 ++ ['>'])) ++ B))) from rfl]
      rw [replaceAll_cons_neg (beginsWith_tagPat_lt_ne ht ht.2.2.2.2)]
      rw [show ('!' :: (('[' :: 'C' :: 'D' :: 'A' :: 'T' :: 'A' :: '[' ::
            (v2 ++ cdataCloseMark)) ++ ('<' :: (('/' :: (t2 ++ ['>'])) ++ B))) : List Char)
          = ('!' :: '[' :: 'C' :: 'D' :: 'A' :: 'T' :: 'A' :: '[' :: (v2 ++ cdataCloseMark))
              ++ ('<' :: (('/' :: (t2 ++ ['>'])) ++ B)) from rfl]
      rw [replaceAll_append_nolt (List.forall_mem_cons.mpr ⟨by decide,
        List.forall_mem_cons.mpr ⟨by decide,
        List.forall_mem_cons.mpr ⟨by decide,
        List.forall_mem_cons.mpr ⟨by decide,
        List.forall_mem_cons.mpr ⟨by decide,
        List.forall_mem_cons.mpr ⟨by decide,
        List.forall_mem_cons.mpr ⟨by decide,
        List.forall_mem_cons.mpr ⟨by decide,
        List.forall_mem_append.mpr ⟨hv2, by decide⟩⟩⟩⟩⟩⟩⟩⟩⟩)]
      rw [show ('<' :: (('/' :: (t2 ++ ['>'])) ++ B) : List Char)
          = '<' :: '/' :: ((t2 ++ ['>']) ++ B) from rfl]
      rw [replaceAll_cons_neg (beginsWith_tagPat_lt_ne ht ht.2.2.2.1)]
      rw [show ('/' :: ((t2 ++ ['>']) ++ B) : List Char)
          = ('/' :: (t2 ++ ['>'])) ++ B from rfl]
      rw [replaceAll_append_nolt (List.forall_mem_cons.mpr ⟨by decide,
        List.forall_mem_append.mpr ⟨nolt_tagOk ht2,
          List.forall_mem_cons.mpr ⟨by decide, nolt_nil⟩⟩⟩)]
      simp [renderSpan, openTagOf, closeTagOf, cdataOpenMark, cdataCloseMark,
        List.append_assoc]

theorem replaceAll_span_renderLine {t v w : List Char} {form form' : SpanForm}
    (ht : tagOk t) (hv : ∀ c ∈ v, ¬(c = '<')) :
    ∀ (segs : List SpanSeg) (tail : List Char), segsOk segs tail →
      replaceAll (renderSpan t form v) (renderSpan t form' w) (renderLine segs tail)
        = renderLine (segs.map (fun sg =>
            if sg.tag = t ∧ sg.form = form ∧ sg.val = v then
              { sg with form := form', val := w } else sg)) tail := by
  intro segs
  induction segs with
  | nil =>
    intro tail hok
    simp only [renderLine, List.map_nil]
    rw [renderSpan_shape t form v]
    exact replaceAll_nolt hok.2
  | cons sg rest ih =>
    intro tail hok
    obtain ⟨gap, tg, fm, vl⟩ := sg
    have hsg : segOk ⟨gap, tg, fm, vl⟩ := hok.1 _ (by simp)
    have hok' : segsOk rest tail := ⟨fun x hx => hok.1 x (by simp [hx]), hok.2⟩
    simp only [renderLine, List.map_cons]
    rw [renderSpan_shape t form v]
    rw [replaceAll_append_nolt hsg.1]
    rw [← renderSpan_shape t form v]
    rw [replaceAll_span_step ht hsg.2.1 hv hsg.2.2.1 (renderLine rest tail)]
    rw [ih tail hok']
    by_cases hcond : (tg = t ∧ fm = form ∧ vl = v)
    · rw [if_pos hcond, if_pos hcond]
      simp only [renderLine]
      rw [hcond.1]
    · rw [if_neg hcond, if_neg hcond]

theorem build_tag_span {t v nv : List Char} {form : SpanForm} (ht : tagOk t)
    (hv : ∀ c ∈ v, ¬(c = '<')) :
    build_tag t nv (renderSpan t form v) = renderSpan t form nv := by
  cases form with
  | cdata =>
    simp only [renderSpan]
    unfold build_tag
    rw [if_pos (containsSub_cdataOpen_cdata_full t v)]
  | plain =>
    simp only [renderSpan]
    unfold build_tag
    rw [if_neg]
    intro hc
    rw [containsSub_cdataOpen_plain ht.2.1 ht.2.2.2.2 hv] at hc
    exact absurd hc (by simp)

theorem updSegBy_absorb {t nv : List Char} (sm sg : SpanSeg) :
    updSegBy t nv sm { sg with val := nv } = { sg with val := nv } := by
  unfold updSegBy
  by_cases h : (({ sg with val := nv } : SpanSeg).tag = t
      ∧ ({ sg with val := nv } : SpanSeg).form = sm.form
      ∧ ({ sg with val := nv } : SpanSeg).val = sm.val)
  · rw [if_pos h]
    have hform : sg.form = sm.form := h.2.1
    rw [← hform]
  · rw [if_neg h]

theorem foldl_updSegBy_absorb {t nv : List Char} :
    ∀ (M : List SpanSeg) (sg : SpanSeg),
      M.foldl (fun x sm => updSegBy t nv sm x) { sg with val := nv }
        = { sg with val := nv } := by
  intro M
  induction M with
  | nil => intro sg; rfl
  | cons sm M2 ih =>
    intro sg
    rw [List.foldl_cons, updSegBy_absorb]
    exact ih sg

theorem updSegBy_cases {t nv : List Char} (sm sg : SpanSeg) :
    updSegBy t nv sm sg = sg ∨ updSegBy t nv sm sg = { sg with val := nv } := by
  unfold updSegBy
  by_cases h : (sg.tag = t ∧ sg.form = sm.form ∧ sg.val = sm.val)
  · right
    rw [if_pos h, ← h.2.1]
  · left
    rw [if_neg h]

theorem foldl_updSegBy_mem {t nv : List Char} :
    ∀ (M : List SpanSeg) (sg : SpanSeg), sg ∈ M → sg.tag = t →
      M.foldl (fun x sm => updSegBy t nv sm x) sg = { sg with val := nv } := by
  intro M
  induction M with
  | nil =>
    intro sg h _
    exact absurd h (by simp)
  | cons sm M2 ih =>
    intro sg hmem htag
    rw [List.foldl_cons]
    rcases List.mem_cons.mp hmem with heq | hmem2
    · have hstep : updSegBy t nv sm sg = { sg with val := nv } := by
        unfold updSegBy
        rw [if_pos ⟨htag, by rw [heq], by rw [heq]⟩, ← heq]
      rw [hstep]
      exact foldl_updSegBy_absorb M2 sg
    · rcases updSegBy_cases sm sg with h | h
      · rw [h]
        exact ih sg hmem2 htag
      · rw [h]
        exact foldl_updSegBy_absorb M2 sg

theorem foldl_updSegBy_skip {t nv : List Char} {ae : Bool} :
    ∀ (M : List SpanSeg) (sg : SpanSeg),
      (∀ sm ∈ M, spanMatches t ae sm = true) → spanMatches t ae sg = false →
      M.foldl (fun x sm => updSegBy t nv sm x) sg = sg := by
  intro M
  induction M with
  | nil => intro sg _ _; rfl
  | cons sm M2 ih =>
    intro sg hall hsg
    rw [List.foldl_cons]
    have hstep : updSegBy t nv sm sg = sg := by
      unfold updSegBy
      rw [if_neg]
      rintro ⟨h1, h2, h3⟩
      have hsm := hall sm (by simp)
      have htrue : spanMatches t ae sg = true := by
        simp only [spanMatches, Bool.and_eq_true, Bool.or_eq_true, decide_eq_true_eq] at hsm ⊢
        exact ⟨h1, by rw [h2, h3]; exact hsm.2⟩
      rw [htrue] at hsg
      exact absurd hsg (by simp)
    rw [hstep]
    exact ih sg (fun x hx => hall x (by simp [hx])) hsg

theorem segsOk_map_updSegBy {t nv : List Char} (sm : SpanSeg)
    (h1 : ∀ c ∈ nv, ¬(c = '<')) (h2 : ∀ c ∈ nv, ¬(c = '\n')) :
    ∀ {segs : List SpanSeg} {tail : List Char}, segsOk segs tail →
      segsOk (segs.map (updSegBy t nv sm)) tail := by
  intro segs tail hok
  refine ⟨?_, hok.2⟩
  intro sg hsg
  rcases List.mem_map.mp hsg with ⟨x, hx, hxe⟩
  have hxok := hok.1 x hx
  unfold updSegBy at hxe
  by_cases hc : (x.tag = t ∧ x.form = sm.form ∧ x.val = sm.val)
  · rw [if_pos hc] at hxe
    rw [← hxe]
    exact ⟨hxok.1, hxok.2.1, h1, h2⟩
  · rw [if_neg hc] at hxe
    rw [← hxe]
    exact hxok

theorem rewritePass_fold {t nv : List Char} (ht : tagOk t)
    (h1 : ∀ c ∈ nv, ¬(c = '<')) (h2 : ∀ c ∈ nv, ¬(c = '\n')) :
    ∀ (ms : List SpanSeg), (∀ sm ∈ ms, sm.tag = t ∧ (∀ c ∈ sm.val, ¬(c = '<'))) →
    ∀ (segs : List SpanSeg) (tail : List Char), segsOk segs tail →
      (ms.map toTagMatch).foldl
          (fun acc m => replaceAll m.full (build_tag t nv m.full) acc)
          (renderLine segs tail)
        = renderLine (segs.map (fun sg =>
            ms.foldl (fun x sm => updSegBy t nv sm x) sg)) tail := by
  intro ms
  induction ms with
  | nil =>
    intro _ segs tail _
    simp [List.map_nil, List.foldl_nil]
  | cons sm ms2 ih =>
    intro hms segs tail hok
    have hsm := hms sm (by simp)
    rw [List.map_cons, List.foldl_cons]
    have hfull : (toTagMatch sm).full = renderSpan t sm.form sm.val := by
      simp only [toTagMatch]
      rw [hsm.1]
    have hstep : replaceAll (toTagMatch sm).full (build_tag t nv (toTagMatch sm).full)
        (renderLine segs tail)
        = renderLine (segs.map (updSegBy t nv sm)) tail := by
      rw [hfull, build_tag_span ht hsm.2]
      rw [replaceAll_span_renderLine ht hsm.2 segs tail hok]
      rfl
    rw [hstep]
    rw [ih (fun x hx => hms x (by simp [hx])) (segs.map (updSegBy t nv sm)) tail
        (segsOk_map_updSegBy sm h1 h2 hok)]
    rw [List.map_map]
    have hfun : ((fun sg => ms2.foldl (fun x sm2 => updSegBy t nv sm2 x) sg)
          ∘ updSegBy t nv sm)
        = (fun sg => (sm :: ms2).foldl (fun x sm2 => updSegBy t nv sm2 x) sg) := by
      funext sg
      simp [Function.comp, List.foldl_cons]
    rw [hfun]

theorem rewritePass_renderLine {t nv : List Char} {ae : Bool} (ht : tagOk t)
    (h1 : ∀ c ∈ nv, ¬(c = '<')) (h2 : ∀ c ∈ nv, ¬(c = '\n')) :
    ∀ (segs : List SpanSeg) (tail : List Char), segsOk segs tail →
      rewritePass t ae nv (renderLine segs tail)
        = renderLine (segs.map (fun sg =>
            if spanMatches t ae sg then { sg with val := nv } else sg)) tail := by
  intro segs tail hok
  unfold rewritePass
  rw [findMatches_renderLine ht segs tail hok]
  have hms : ∀ sm ∈ segs.filter (spanMatches t ae),
      sm.tag = t ∧ (∀ c ∈ sm.val, ¬(c = '<')) := by
    intro sm hsm
    have hmf := List.mem_filter.mp hsm
    have htag : sm.tag = t := by
      have hp := hmf.2
      simp only [spanMatches, Bool.and_eq_true, decide_eq_true_eq] at hp
      exact hp.1
    exact ⟨htag, (hok.1 sm hmf.1).2.2.1⟩
  rw [rewritePass_fold ht h1 h2 (segs.filter (spanMatches t ae)) hms segs tail hok]
  congr 1
  apply List.map_congr_left
  intro sg hsg
  by_cases hm : spanMatches t ae sg = true
  · rw [if_pos hm]
    have hmem : sg ∈ segs.filter (spanMatches t ae) := List.mem_filter.mpr ⟨hsg, hm⟩
    have htag : sg.tag = t := by
      simp only [spanMatches, Bool.and_eq_true, decide_eq_true_eq] at hm
      exact hm.1
    have hres := @foldl_updSegBy_mem t nv (segs.filter (spanMatches t ae)) sg hmem htag
    rw [hres]
  · have hm2 : spanMatches t ae sg = false := by
      cases hb : spanMatches t ae sg
      · rfl
      · exact absurd hb hm
    rw [if_neg hm]
    exact foldl_updSegBy_skip (segs.filter (spanMatches t ae)) sg
      (fun x hx => (List.mem_filter.mp hx).2) hm2

theorem spanMatches_true_ae (t : List Char) (sg : SpanSeg) :
    spanMatches t true sg = decide (sg.tag = t) := by
  simp [spanMatches]

theorem segsOk_map_passUpd {t nv : List Char} {ae : Bool}
    (h1 : ∀ c ∈ nv, ¬(c = '<')) (h2 : ∀ c ∈ nv, ¬(c = '\n')) :
    ∀ {segs : List SpanSeg} {tail : List Char}, segsOk segs tail →
      segsOk (segs.map (fun sg =>
        if spanMatches t ae sg then { sg with val := nv } else sg)) tail := by
  intro segs tail hok
  refine ⟨?_, hok.2⟩
  intro sg hsg
  rcases List.mem_map.mp hsg with ⟨x, hx, hxe⟩
  have hxok := hok.1 x hx
  by_cases hc : spanMatches t ae x = true
  · rw [if_pos hc] at hxe
    rw [← hxe]
    exact ⟨hxok.1, hxok.2.1, h1, h2⟩
  · rw [if_neg hc] at hxe
    rw [← hxe]
    exact hxok

theorem searchRewrite_renderLine {t nv : List Char} (ht : tagOk t)
    (h1 : ∀ c ∈ nv, ¬(c = '<')) :
    ∀ (segs : List SpanSeg) (tail : List Char) (sm0 : SpanSeg)
      (rest : List SpanSeg), segsOk segs tail →
      segs.filter (spanMatches t false) = sm0 :: rest →
      searchRewrite t nv (renderLine segs tail)
        = renderLine (segs.map (fun sg =>
            if sg.tag = t ∧ sg.form = sm0.form ∧ sg.val = sm0.val then
              { sg with val := nv } else sg)) tail := by
  intro segs tail sm0 rest hok hfil
  have hmemfil : sm0 ∈ segs.filter (spanMatches t false) := by
    rw [hfil]
    simp
  have hmem : sm0 ∈ segs := (List.mem_filter.mp hmemfil).1
  have htag : sm0.tag = t := by
    have hp := (List.mem_filter.mp hmemfil).2
    simp only [spanMatches, Bool.and_eq_true, decide_eq_true_eq] at hp
    exact hp.1
  have hval : ∀ c ∈ sm0.val, ¬(c = '<') := (hok.1 sm0 hmem).2.2.1
  unfold searchRewrite
  rw [findMatches_renderLine ht segs tail hok, hfil, List.map_cons]
  show replaceAll (toTagMatch sm0).full
      (build_tag t nv (toTagMatch sm0).full) (renderLine segs tail) = _
  have hfull : (toTagMatch sm0).full = renderSpan t sm0.form sm0.val := by
    simp only [toTagMatch]
    rw [htag]
  rw [hfull, build_tag_span ht hval,
      replaceAll_span_renderLine ht hval segs tail hok]
  congr 1
  apply List.map_congr_left
  intro sg hsg
  by_cases hc : (sg.tag = t ∧ sg.form = sm0.form ∧ sg.val = sm0.val)
  · rw [if_pos hc, if_pos hc, ← hc.2.1]
  · rw [if_neg hc, if_neg hc]

theorem twoPass_renderLine {t1 t2 nv : List Char} (ht1 : tagOk t1) (ht2 : tagOk t2)
    (h1 : ∀ c ∈ nv, ¬(c = '<')) (h2 : ∀ c ∈ nv, ¬(c = '\n')) :
    ∀ (segs : List SpanSeg) (tail : List Char), segsOk segs tail →
      rewritePass t2 true nv (rewritePass t1 true nv (renderLine segs tail))
        = renderLine (segs.map (fun sg =>
            if sg.tag = t1 ∨ sg.tag = t2 then { sg with val := nv } else sg)) tail := by
  intro segs tail hok
  rw [rewritePass_renderLine ht1 h1 h2 segs tail hok]
  rw [rewritePass_renderLine ht2 h1 h2 (segs.map (fun sg =>
      if spanMatches t1 true sg then { sg with val := nv } else sg)) tail
      (segsOk_map_passUpd h1 h2 hok)]
  rw [List.map_map]
  congr 1
  apply List.map_congr_left
  intro sg hsg
  simp only [Function.comp]
  by_cases hc1 : sg.tag = t1
  · have hm1 : spanMatches t1 true sg = true := by
      rw [spanMatches_true_ae]
      simp [hc1]
    rw [if_pos hm1]
    by_cases hc2 : sg.tag = t2
    · have hm2 : spanMatches t2 true ({ sg with val := nv } : SpanSeg) = true := by
        rw [spanMatches_true_ae]
        simp [hc2]
      rw [if_pos hm2, if_pos (Or.inl hc1)]
    · have hm2 : ¬(spanMatches t2 true ({ sg with val := nv } : SpanSeg) = true) := by
        rw [spanMatches_true_ae]
        simp [hc2]
      rw [if_neg hm2, if_pos (Or.inl hc1)]
  · have hm1 : ¬(spanMatches t1 true sg = true) := by
      rw [spanMatches_true_ae]
      simp [hc1]
    rw [if_neg hm1]
    by_cases hc2 : sg.tag = t2
    · have hm2 : spanMatches t2 true sg = true := by
        rw [spanMatches_true_ae]
        simp [hc2]
      rw [if_pos hm2, if_pos (Or.inr hc2)]
    · have hm2 : ¬(spanMatches t2 true sg = true) := by
        rw [spanMatches_true_ae]
        simp [hc2]
      rw [if_neg hm2, if_neg]
      rintro (h | h)
      · exact hc1 h
      · exact hc2 h

theorem spanMatches_true_updVal (t : List Char) (sg : SpanSeg) (b : Prop)
    [Decidable b] (nv : List Char) :
    spanMatches t true (if b then { sg with val := nv } else sg)
      = spanMatches t true sg := by
  rw [spanMatches_true_ae, spanMatches_true_ae]
  by_cases h : b
  · rw [if_pos h]
  · rw [if_neg h]

theorem segsOk_map_valUpd {nv : List Char} (P : SpanSeg → Prop) [DecidablePred P]
    (h1 : ∀ c ∈ nv, ¬(c = '<')) (h2 : ∀ c ∈ nv, ¬(c = '\n')) :
    ∀ {segs : List SpanSeg} {tail : List Char}, segsOk segs tail →
      segsOk (segs.map (fun sg => if P sg then { sg with val := nv } else sg)) tail := by
  intro segs tail hok
  refine ⟨?_, hok.2⟩
  intro sg hsg
  rcases List.mem_map.mp hsg with ⟨x, hx, hxe⟩
  have hxok := hok.1 x hx
  by_cases hc : P x
  · rw [if_pos hc] at hxe
    rw [← hxe]
    exact ⟨hxok.1, hxok.2.1, h1, h2⟩
  · rw [if_neg hc] at hxe
    rw [← hxe]
    exact hxok

theorem forceValBy_idem (t1 t2 nv : List Char) (sg : SpanSeg) :
    forceValBy t1 t2 nv (forceValBy t1 t2 nv sg) = forceValBy t1 t2 nv sg := by
  unfold forceValBy
  by_cases hc : (sg.tag = t1 ∨ sg.tag = t2)
  · rw [if_pos hc]
    exact if_pos hc
  · rw [if_neg hc]
    exact if_neg hc

theorem forceVal_idem (t nv : List Char) (sg : SpanSeg) :
    forceVal t nv (forceVal t nv sg) = forceVal t nv sg := by
  unfold forceVal
  by_cases hc : sg.tag = t
  · rw [if_pos hc]
    exact if_pos hc
  · rw [if_neg hc]
    exact if_neg hc

theorem map_forceValBy_idem (t1 t2 nv : List Char) (segs : List SpanSeg) :
    (segs.map (forceValBy t1 t2 nv)).map (forceValBy t1 t2 nv)
      = segs.map (forceValBy t1 t2 nv) := by
  rw [List.map_map]
  apply List.map_congr_left
  intro sg _
  exact forceValBy_idem t1 t2 nv sg

theorem map_forceVal_idem (t nv : List Char) (segs : List SpanSeg) :
    (segs.map (forceVal t nv)).map (forceVal t nv) = segs.map (forceVal t nv) := by
  rw [List.map_map]
  apply List.map_congr_left
  intro sg _
  exact forceVal_idem t nv sg

theorem spanMatches_forceValBy (t t1 t2 nv : List Char) (sg : SpanSeg) :
    spanMatches t true (forceValBy t1 t2 nv sg) = spanMatches t true sg := by
  unfold forceValBy
  exact spanMatches_true_updVal t sg _ nv

theorem spanMatches_forceVal (t t0 nv : List Char) (sg : SpanSeg) :
    spanMatches t true (forceVal t0 nv sg) = spanMatches t true sg := by
  unfold forceVal
  exact spanMatches_true_updVal t sg _ nv

theorem findMatches_isEmpty_renderLine {t : List Char} {ae : Bool} (ht : tagOk t) :
    ∀ (segs : List SpanSeg) (tail : List Char), segsOk segs tail →
      (findMatches t ae (renderLine segs tail)).isEmpty
        = !(segs.any (spanMatches t ae)) := by
  intro segs tail hok
  rw [findMatches_renderLine ht segs tail hok]
  cases hq : segs.any (spanMatches t ae)
  · have hfil : segs.filter (spanMatches t ae) = [] := by
      rw [List.filter_eq_nil_iff]
      intro a ha hp
      have hman := List.any_eq_false.mp hq
      exact hman a ha hp
    rw [hfil]
    rfl
  · obtain ⟨a, ha, hp⟩ := List.any_eq_true.mp hq
    have hmem : a ∈ segs.filter (spanMatches t ae) := List.mem_filter.mpr ⟨ha, hp⟩
    cases hf : segs.filter (spanMatches t ae) with
    | nil =>
      rw [hf] at hmem
      exact absurd hmem (by simp)
    | cons b bs =>
      rfl

theorem any_congr_mem {α : Type} {p q : α → Bool} :
    ∀ {l : List α}, (∀ a ∈ l, p a = q a) → l.any p = l.any q := by
  intro l
  induction l with
  | nil => intro _; rfl
  | cons a l2 ih =>
    intro h
    simp only [List.any_cons]
    rw [h a (by simp), ih (fun x hx => h x (by simp [hx]))]

theorem any_or_split {α : Type} (p q : α → Bool) :
    ∀ (l : List α), l.any (fun a => p a || q a) = (l.any p || l.any q) := by
  intro l
  induction l with
  | nil => rfl
  | cons a l2 ih =>
    simp only [List.any_cons, ih]
    cases p a <;> cases q a <;> simp

theorem found_twoPass {t1 t2 nv : List Char} (ht1 : tagOk t1) (ht2 : tagOk t2)
    (h1 : ∀ c ∈ nv, ¬(c = '<')) (h2 : ∀ c ∈ nv, ¬(c = '\n')) :
    ∀ (segs : List SpanSeg) (tail : List Char), segsOk segs tail →
      (!(findMatches t1 true (renderLine segs tail)).isEmpty ||
       !(findMatches t2 true (rewritePass t1 true nv (renderLine segs tail))).isEmpty)
        = segs.any (fun sg => spanMatches t1 true sg || spanMatches t2 true sg) := by
  intro segs tail hok
  rw [findMatches_isEmpty_renderLine ht1 segs tail hok]
  rw [rewritePass_renderLine ht1 h1 h2 segs tail hok]
  rw [findMatches_isEmpty_renderLine ht2 (segs.map (fun sg =>
      if spanMatches t1 true sg then { sg with val := nv } else sg)) tail
      (segsOk_map_passUpd h1 h2 hok)]
  rw [Bool.not_not, Bool.not_not, List.any_map]
  have hcomp : segs.any ((spanMatches t2 true) ∘ (fun sg =>
      if spanMatches t1 true sg then { sg with val := nv } else sg))
      = segs.any (spanMatches t2 true) := by
    apply any_congr_mem
    intro a _
    simp only [Function.comp]
    exact spanMatches_true_updVal t2 a _ nv
  rw [hcomp, any_or_split]

set_option maxRecDepth 10000 in
theorem pass_flags_line_renderLine :
    ∀ (segs : List SpanSeg) (tail : List Char), segsOk segs tail →
      update_sftp_pass_flags_line (renderLine segs tail)
        = renderLine (segs.map (forceValBy ppsSFTPPassFlagF neSFTPClientPassFlagF
            (['0'] : List Char))) tail := by
  intro segs tail hok
  exact twoPass_renderLine (show tagOk ppsSFTPPassFlagF by unfold tagOk; decide)
    (show tagOk neSFTPClientPassFlagF by unfold tagOk; decide) (by decide) (by decide) segs tail hok

set_option maxRecDepth 10000 in
theorem dss_line_renderLine :
    ∀ (segs : List SpanSeg) (tail : List Char), segsOk segs tail →
      update_default_stopped_state_line (renderLine segs tail)
        = renderLine (segs.map (forceVal defaultStoppedState (['1'] : List Char))) tail := by
  intro segs tail hok
  have h := @rewritePass_renderLine defaultStoppedState (['1'] : List Char) true
      (show tagOk defaultStoppedState by unfold tagOk; decide) (by decide) (by decide) segs tail hok
  rw [show update_default_stopped_state_line (renderLine segs tail)
      = rewritePass defaultStoppedState true ['1'] (renderLine segs tail) from rfl, h]
  congr 1
  apply List.map_congr_left
  intro sg _
  by_cases hc : sg.tag = defaultStoppedState
  · rw [if_pos (show spanMatches defaultStoppedState true sg = true by
        rw [spanMatches_true_ae]; simp [hc])]
    unfold forceVal
    rw [if_pos hc]
  · rw [if_neg (show ¬(spanMatches defaultStoppedState true sg = true) by
        rw [spanMatches_true_ae]; simp [hc])]
    unfold forceVal
    rw [if_neg hc]

theorem segsOk_map_forceValBy {t1 t2 nv : List Char}
    (h1 : ∀ c ∈ nv, ¬(c = '<')) (h2 : ∀ c ∈ nv, ¬(c = '\n')) :
    ∀ {segs : List SpanSeg} {tail : List Char}, segsOk segs tail →
      segsOk (segs.map (forceValBy t1 t2 nv)) tail := by
  intro segs tail hok
  exact segsOk_map_valUpd (fun sg => sg.tag = t1 ∨ sg.tag = t2) h1 h2 hok

theorem segsOk_map_forceVal {t nv : List Char}
    (h1 : ∀ c ∈ nv, ¬(c = '<')) (h2 : ∀ c ∈ nv, ¬(c = '\n')) :
    ∀ {segs : List SpanSeg} {tail : List Char}, segsOk segs tail →
      segsOk (segs.map (forceVal t nv)) tail := by
  intro segs tail hok
  exact segsOk_map_valUpd (fun sg => sg.tag = t) h1 h2 hok

set_option maxRecDepth 10000 in
theorem pass_flags_found_renderLine :
    ∀ (segs : List SpanSeg) (tail : List Char), segsOk segs tail →
      update_sftp_pass_flags_found (renderLine segs tail)
        = segs.any (fun sg => spanMatches ppsSFTPPassFlagF true sg
            || spanMatches neSFTPClientPassFlagF true sg) := by
  intro segs tail hok
  exact found_twoPass (show tagOk ppsSFTPPassFlagF by unfold tagOk; decide)
    (show tagOk neSFTPClientPassFlagF by unfold tagOk; decide) (by decide) (by decide) segs tail hok

set_option maxRecDepth 10000 in
theorem dss_found_renderLine :
    ∀ (segs : List SpanSeg) (tail : List Char), segsOk segs tail →
      (!(findMatches defaultStoppedState true (renderLine segs tail)).isEmpty)
        = segs.any (spanMatches defaultStoppedState true) := by
  intro segs tail hok
  rw [findMatches_isEmpty_renderLine (show tagOk defaultStoppedState by unfold tagOk; decide)
      segs tail hok, Bool.not_not]

theorem any_map_comp {α β : Type} (f : α → β) (p : β → Bool) :
    ∀ (l : List α), (l.map f).any p = l.any (fun a => p (f a)) := by
  intro l
  induction l with
  | nil => rfl
  | cons a l2 ih => simp only [List.map_cons, List.any_cons, ih]

/-- C10: the pass-flag update (forcing `0`) and the default-stopped-state
update (forcing `1`) are idempotent at the file level on well-formed XML
lines (gaps, values and tails free of markup), and the second run reports the
same found flag as the first.  Amended: unrestricted byte-level idempotence
is false, because `str.replace` substitutes every occurrence of a matched
span's text, including text embedded inside another tag's CDATA value (see
the counterexample). -/
theorem C10_update_idempotent
    (lns : List (List SpanSeg × List Char))
    (hok : ∀ e ∈ lns, segsOk e.1 e.2) :
    ((update_sftp_pass_flags (update_sftp_pass_flags (renderFile lns)).2).2
        = (update_sftp_pass_flags (renderFile lns)).2
      ∧ (update_sftp_pass_flags (update_sftp_pass_flags (renderFile lns)).2).1
        = (update_sftp_pass_flags (renderFile lns)).1)
    ∧ ((update_default_stopped_state
          (update_default_stopped_state (renderFile lns)).2).2
        = (update_default_stopped_state (renderFile lns)).2
      ∧ (update_default_stopped_state
          (update_default_stopped_state (renderFile lns)).2).1
        = (update_default_stopped_state (renderFile lns)).1) := by
  have hA : ∀ (L : List (List SpanSeg × List Char)), (∀ e ∈ L, segsOk e.1 e.2) →
      (update_sftp_pass_flags (renderFile L)).2
        = renderFile (L.map (fun e =>
            (e.1.map (forceValBy ppsSFTPPassFlagF neSFTPClientPassFlagF ['0']),
             e.2))) := by
    intro L hokL
    show (renderFile L).map update_sftp_pass_flags_line = _
    unfold renderFile
    rw [List.map_map, List.map_map]
    apply List.map_congr_left
    intro e he
    simp only [Function.comp]
    exact pass_flags_line_renderLine e.1 e.2 (hokL e he)
  have hB : ∀ (L : List (List SpanSeg × List Char)), (∀ e ∈ L, segsOk e.1 e.2) →
      (update_sftp_pass_flags (renderFile L)).1
        = L.any (fun e => e.1.any (fun sg => spanMatches ppsSFTPPassFlagF true sg
            || spanMatches neSFTPClientPassFlagF true sg)) := by
    intro L hokL
    show (renderFile L).any update_sftp_pass_flags_found = _
    unfold renderFile
    rw [any_map_comp]
    apply any_congr_mem
    intro e he
    exact pass_flags_found_renderLine e.1 e.2 (hokL e he)
  have hC : ∀ (L : List (List SpanSeg × List Char)), (∀ e ∈ L, segsOk e.1 e.2) →
      (update_default_stopped_state (renderFile L)).2
        = renderFile (L.map (fun e =>
            (e.1.map (forceVal defaultStoppedState ['1']), e.2))) := by
    intro L hokL
    show (renderFile L).map update_default_stopped_state_line = _
    unfold renderFile
    rw [List.map_map, List.map_map]
    apply List.map_congr_left
    intro e he
    simp only [Function.comp]
    exact dss_line_renderLine e.1 e.2 (hokL e he)
  have hD : ∀ (L : List (List SpanSeg × List Char)), (∀ e ∈ L, segsOk e.1 e.2) →
      (update_default_stopped_state (renderFile L)).1
        = L.any (fun e => e.1.any (spanMatches defaultStoppedState true)) := by
    intro L hokL
    show (renderFile L).any
        (fun l => !(findMatches defaultStoppedState true l).isEmpty) = _
    unfold renderFile
    rw [any_map_comp]
    apply any_congr_mem
    intro e he
    exact dss_found_renderLine e.1 e.2 (hokL e he)
  have hok1 : ∀ e ∈ lns.map (fun e =>
      (e.1.map (forceValBy ppsSFTPPassFlagF neSFTPClientPassFlagF ['0']), e.2)),
      segsOk e.1 e.2 := by
    intro e he
    rcases List.mem_map.mp he with ⟨x, hx, hxe⟩
    rw [← hxe]
    exact segsOk_map_forceValBy (by decide) (by decide) (hok x hx)
  have hok2 : ∀ e ∈ lns.map (fun e =>
      (e.1.map (forceVal defaultStoppedState ['1']), e.2)), segsOk e.1 e.2 := by
    intro e he
    rcases List.mem_map.mp he with ⟨x, hx, hxe⟩
    rw [← hxe]
    exact segsOk_map_forceVal (by decide) (by decide) (hok x hx)
  refine ⟨⟨?_, ?_⟩, ?_, ?_⟩
  · rw [hA lns hok, hA _ hok1]
    congr 1
    rw [List.map_map]
    apply List.map_congr_left
    intro e _
    show ((e.1.map (forceValBy ppsSFTPPassFlagF neSFTPClientPassFlagF ['0'])).map
          (forceValBy ppsSFTPPassFlagF neSFTPClientPassFlagF ['0']), e.2)
        = (e.1.map (forceValBy ppsSFTPPassFlagF neSFTPClientPassFlagF ['0']), e.2)
    rw [map_forceValBy_idem]
  · rw [hA lns hok, hB _ hok1, hB lns hok, any_map_comp]
    apply any_congr_mem
    intro e _
    show (e.1.map (forceValBy ppsSFTPPassFlagF neSFTPClientPassFlagF ['0'])).any
        (fun sg => spanMatches ppsSFTPPassFlagF true sg
          || spanMatches neSFTPClientPassFlagF true sg)
      = e.1.any (fun sg => spanMatches ppsSFTPPassFlagF true sg
          || spanMatches neSFTPClientPassFlagF true sg)
    rw [any_map_comp]
    apply any_congr_mem
    intro sg _
    show (spanMatches ppsSFTPPassFlagF true
            (forceValBy ppsSFTPPassFlagF neSFTPClientPassFlagF ['0'] sg)
        || spanMatches neSFTPClientPassFlagF true
            (forceValBy ppsSFTPPassFlagF neSFTPClientPassFlagF ['0'] sg))
      = (spanMatches ppsSFTPPassFlagF true sg
        || spanMatches neSFTPClientPassFlagF true sg)
    rw [spanMatches_forceValBy, spanMatches_forceValBy]
  · rw [hC lns hok, hC _ hok2]
    congr 1
    rw [List.map_map]
    apply List.map_congr_left
    intro e _
    show ((e.1.map (forceVal defaultStoppedState ['1'])).map
          (forceVal defaultStoppedState ['1']), e.2)
        = (e.1.map (forceVal defaultStoppedState ['1']), e.2)
    rw [map_forceVal_idem]
  · rw [hC lns hok, hD _ hok2, hD lns hok, any_map_comp]
    apply any_congr_mem
    intro e _
    show (e.1.map (forceVal defaultStoppedState ['1'])).any
        (spanMatches defaultStoppedState true)
      = e.1.any (spanMatches defaultStoppedState true)
    rw [any_map_comp]
    apply any_congr_mem
    intro sg _
    show spanMatches defaultStoppedState true (forceVal defaultStoppedState ['1'] sg)
      = spanMatches defaultStoppedState true sg
    rw [spanMatches_forceVal]

set_option maxRecDepth 10000 in
/-- C3 counterexample: `update_sftp_host` uses `re.search`, so on a line with
two `ppsSFTPHostF` elements carrying different values only the first is
rewritten; the second keeps its old value, contradicting the claim that all
matches of the same tag on one line are rewritten. -/
theorem C3_counterexample :
    update_sftp_host_line "9.9.9.9".toList
        "<ppsSFTPHostF>1.1.1.1</ppsSFTPHostF><ppsSFTPHostF>2.2.2.2</ppsSFTPHostF>".toList
      = "<ppsSFTPHostF>9.9.9.9</ppsSFTPHostF><ppsSFTPHostF>2.2.2.2</ppsSFTPHostF>".toList
    ∧ update_sftp_host_line "9.9.9.9".toList
        "<ppsSFTPHostF>1.1.1.1</ppsSFTPHostF><ppsSFTPHostF>2.2.2.2</ppsSFTPHostF>".toList
      ≠ "<ppsSFTPHostF>9.9.9.9</ppsSFTPHostF><ppsSFTPHostF>9.9.9.9</ppsSFTPHostF>".toList := by
  constructor
  · decide
  · decide

set_option maxRecDepth 10000 in
/-- C3: amended: the `re.finditer` based updates rewrite every occurrence of
their target tags on a line (shown for `update_sftp_username`: every
user-tagged segment of a well-formed line ends up holding the new value),
while the `re.search` based host update rewrites exactly the segments whose
span agrees with the first filtered match in wrapper and value (on lines
without the second host tag), so a second host element with a different value
survives (see the counterexample). -/
theorem C3_rewrite_coverage {nv : List Char}
    (h1 : ∀ c ∈ nv, ¬(c = '<')) (h2 : ∀ c ∈ nv, ¬(c = '\n')) :
    (∀ (segs : List SpanSeg) (tail : List Char), segsOk segs tail →
      update_sftp_username_line nv (renderLine segs tail)
        = renderLine (segs.map (fun sg =>
            if sg.tag = ppsSFTPUserF ∨ sg.tag = neSFTPClientUserF then
              { sg with val := nv } else sg)) tail)
    ∧ (∀ (segs : List SpanSeg) (tail : List Char) (sm0 : SpanSeg)
        (rest : List SpanSeg), segsOk segs tail →
      (∀ sg ∈ segs, ¬(sg.tag = neSFTPClientHostF)) →
      segs.filter (spanMatches ppsSFTPHostF false) = sm0 :: rest →
      update_sftp_host_line nv (renderLine segs tail)
        = renderLine (segs.map (fun sg =>
            if sg.tag = ppsSFTPHostF ∧ sg.form = sm0.form ∧ sg.val = sm0.val then
              { sg with val := nv } else sg)) tail) := by
  constructor
  · intro segs tail hok
    exact twoPass_renderLine (show tagOk ppsSFTPUserF by unfold tagOk; decide)
      (show tagOk neSFTPClientUserF by unfold tagOk; decide) h1 h2 segs tail hok
  · intro segs tail sm0 rest hok hne hfil
    have hstep1 : searchRewrite ppsSFTPHostF nv (renderLine segs tail)
        = renderLine (segs.map (fun sg =>
            if sg.tag = ppsSFTPHostF ∧ sg.form = sm0.form ∧ sg.val = sm0.val then
              { sg with val := nv } else sg)) tail :=
      searchRewrite_renderLine (show tagOk ppsSFTPHostF by unfold tagOk; decide) h1
        segs tail sm0 rest hok hfil
    have hok2 : segsOk (segs.map (fun sg =>
        if sg.tag = ppsSFTPHostF ∧ sg.form = sm0.form ∧ sg.val = sm0.val then
          { sg with val := nv } else sg)) tail :=
      segsOk_map_valUpd (fun sg =>
        sg.tag = ppsSFTPHostF ∧ sg.form = sm0.form ∧ sg.val = sm0.val) h1 h2 hok
    have hempty : findMatches neSFTPClientHostF false (renderLine (segs.map (fun sg =>
        if sg.tag = ppsSFTPHostF ∧ sg.form = sm0.form ∧ sg.val = sm0.val then
          { sg with val := nv } else sg)) tail) = [] := by
      rw [findMatches_renderLine (show tagOk neSFTPClientHostF by unfold tagOk; decide)
          (segs.map (fun sg =>
            if sg.tag = ppsSFTPHostF ∧ sg.form = sm0.form ∧ sg.val = sm0.val then
              { sg with val := nv } else sg)) tail hok2]
      have hfil2 : (segs.map (fun sg =>
          if sg.tag = ppsSFTPHostF ∧ sg.form = sm0.form ∧ sg.val = sm0.val then
            { sg with val := nv } else sg)).filter
            (spanMatches neSFTPClientHostF false) = [] := by
        rw [List.filter_eq_nil_iff]
        intro a ha hp
        rcases List.mem_map.mp ha with ⟨x, hx, hxe⟩
        have hxt : a.tag = x.tag := by
          rw [← hxe]
          by_cases hc : (x.tag = ppsSFTPHostF ∧ x.form = sm0.form ∧ x.val = sm0.val)
          · rw [if_pos hc]
          · rw [if_neg hc]
        have hat : a.tag = neSFTPClientHostF := by
          simp only [spanMatches, Bool.and_eq_true, decide_eq_true_eq] at hp
          exact hp.1
        exact hne x hx (by rw [← hxt, hat])
      rw [hfil2]
      rfl
    show searchRewrite neSFTPClientHostF nv
        (searchRewrite ppsSFTPHostF nv (renderLine segs tail)) = _
    rw [hstep1]
    unfold searchRewrite
    rw [hempty]

set_option maxRecDepth 10000 in
theorem C3_rewrite_coverage_witness :
    update_sftp_username_line ['n'] (renderLine
        [⟨[], ppsSFTPUserF, SpanForm.plain, ['u']⟩,
         ⟨[' '], neSFTPClientUserF, SpanForm.cdata, ['v']⟩] [])
      = renderLine
        (([⟨[], ppsSFTPUserF, SpanForm.plain, ['u']⟩,
           ⟨[' '], neSFTPClientUserF, SpanForm.cdata, ['v']⟩] : List SpanSeg).map (fun sg =>
            if sg.tag = ppsSFTPUserF ∨ sg.tag = neSFTPClientUserF then
              { sg with val := ['n'] } else sg)) []
    ∧ update_sftp_host_line ['n'] (renderLine
        [⟨[], ppsSFTPHostF, SpanForm.plain, ['h']⟩,
         ⟨[' '], ppsSFTPHostF, SpanForm.plain, ['k']⟩] [])
      = renderLine
        (([⟨[], ppsSFTPHostF, SpanForm.plain, ['h']⟩,
           ⟨[' '], ppsSFTPHostF, SpanForm.plain, ['k']⟩] : List SpanSeg).map (fun sg =>
            if sg.tag = ppsSFTPHostF
                ∧ sg.form = (⟨[], ppsSFTPHostF, SpanForm.plain, ['h']⟩ : SpanSeg).form
                ∧ sg.val = (⟨[], ppsSFTPHostF, SpanForm.plain, ['h']⟩ : SpanSeg).val then
              { sg with val := ['n'] } else sg)) [] :=
  ⟨(C3_rewrite_coverage (by decide) (by decide)).1
      [⟨[], ppsSFTPUserF, SpanForm.plain, ['u']⟩,
       ⟨[' '], neSFTPClientUserF, SpanForm.cdata, ['v']⟩] []
      (by simp only [segsOk, segOk, tagOk]; decide),
   (C3_rewrite_coverage (by decide) (by decide)).2
      [⟨[], ppsSFTPHostF, SpanForm.plain, ['h']⟩,
       ⟨[' '], ppsSFTPHostF, SpanForm.plain, ['k']⟩] []
      ⟨[], ppsSFTPHostF, SpanForm.plain, ['h']⟩
      [⟨[' '], ppsSFTPHostF, SpanForm.plain, ['k']⟩]
      (by simp only [segsOk, segOk, tagOk]; decide) (by decide) (by decide)⟩

set_option maxRecDepth 10000 in
theorem C10_update_idempotent_witness :
    ((update_sftp_pass_flags (update_sftp_pass_flags (renderFile
            [([⟨[], ppsSFTPPassFlagF, SpanForm.plain, ['x']⟩], [])])).2).2
        = (update_sftp_pass_flags (renderFile
            [([⟨[], ppsSFTPPassFlagF, SpanForm.plain, ['x']⟩], [])])).2
      ∧ (update_sftp_pass_flags (update_sftp_pass_flags (renderFile
            [([⟨[], ppsSFTPPassFlagF, SpanForm.plain, ['x']⟩], [])])).2).1
        = (update_sftp_pass_flags (renderFile
            [([⟨[], ppsSFTPPassFlagF, SpanForm.plain, ['x']⟩], [])])).1)
    ∧ ((update_default_stopped_state (update_default_stopped_state (renderFile
            [([⟨[], ppsSFTPPassFlagF, SpanForm.plain, ['x']⟩], [])])).2).2
        = (update_default_stopped_state (renderFile
            [([⟨[], ppsSFTPPassFlagF, SpanForm.plain, ['x']⟩], [])])).2
      ∧ (update_default_stopped_state (update_default_stopped_state (renderFile
            [([⟨[], ppsSFTPPassFlagF, SpanForm.plain, ['x']⟩], [])])).2).1
        = (update_default_stopped_state (renderFile
            [([⟨[], ppsSFTPPassFlagF, SpanForm.plain, ['x']⟩], [])])).1) :=
  C10_update_idempotent [([⟨[], ppsSFTPPassFlagF, SpanForm.plain, ['x']⟩], [])]
    (by simp only [segsOk, segOk, tagOk]; decide)

set_option maxRecDepth 100000 in
/-- C10 counterexample: applying the pass-flag update a second time to its own
output changes the file again when a pass-flag tag's CDATA value itself
contains pass-flag markup - the first run's whole-line `str.replace` rewrites
the copy inside the CDATA value, after which the second run's CDATA match has
a new span text and is rewritten once more, so the update is not idempotent on
arbitrary byte streams. -/
theorem C10_counterexample :
    (update_sftp_pass_flags (update_sftp_pass_flags
        ["<ppsSFTPPassFlagF>x</ppsSFTPPassFlagF><ppsSFTPPassFlagF><![CDATA[<ppsSFTPPassFlagF>x</ppsSFTPPassFlagF>]]></ppsSFTPPassFlagF>".toList]).2).2
      ≠ (update_sftp_pass_flags
        ["<ppsSFTPPassFlagF>x</ppsSFTPPassFlagF><ppsSFTPPassFlagF><![CDATA[<ppsSFTPPassFlagF>x</ppsSFTPPassFlagF>]]></ppsSFTPPassFlagF>".toList]).2 := by
  decide
